import Mathlib

/-!
Shallow embedding of the Clickfit storefront core (src/store/views.py,
src/store/models.py): the session cart, its reconciliation against the
product catalog at each endpoint, the checkout commit, and the newsletter
subscription endpoint.  Prices (Django DecimalField values with two
decimal places) are modelled as integer counts of hundredths (cents), which
keeps all monetary arithmetic exact and decidable; Python integers are modelled as Int.
-/

namespace Store

/-- A catalog product (models.py, class Product).  `stock` is carried as an
optional integer: every stock check in views.py is guarded by
`product.stock is not None`, and Python arithmetic on the attribute is plain
integer arithmetic.  Display-only fields (description, category, sku, …) are
omitted. -/
structure Product where
  id : Nat
  name : String
  price : Int
  image : String
  stock : Option Int
  is_active : Bool
deriving Repr, DecidableEq

/-- Whether the `stock` column of Product allows NULL.  models.py line 24
declares `stock = models.PositiveIntegerField(default=0)`; a Django model
field is non-nullable unless declared with `null=True`, which this field is
not. -/
def Product.stockFieldNullable : Bool := false

/-- One entry of the session cart: the JSON object
`{id, name, price, image, quantity}` appended by add_to_cart
(views.py lines 344-350).  `quantity` is produced by Python `int(...)` and
may be non-positive.  The display-only `current_stock` key written by the
cart view is not modelled. -/
structure CartItem where
  id : Nat
  name : String
  price : Int
  image : String
  quantity : Int
deriving Repr, DecidableEq

/-- Lookup `Product.objects.get(id=pid, is_active=True)` as used by every
reconciliation path: the first catalog row with this id that is active,
if any. -/
def getActive (catalog : List Product) (pid : Nat) : Option Product :=
  catalog.find? (fun p => p.id == pid && p.is_active)

/-- Lookup `Product.objects.get(id=pid)` (no is_active filter) as used by the stock
decrement loop of checkout (views.py line 121). -/
def getById (catalog : List Product) (pid : Nat) : Option Product :=
  catalog.find? (fun p => p.id == pid)

/-- The session state used by the cart endpoints: `request.session['cart']`,
`request.session['cart_count']` and `request.session['last_order_id']`. -/
structure Session where
  cart : List CartItem
  cart_count : Int
  last_order_id : Option Nat
deriving Repr, DecidableEq

/-- Sum of the quantities of a cart, `sum(item['quantity'] for item in c)`. -/
def sumQty (c : List CartItem) : Int := (c.map CartItem.quantity).sum

/-- The running `total` as accumulated by the cart and checkout views:
`total += float(item['price']) * item['quantity']` over the validated cart
(float arithmetic on two-decimal amounts modelled exactly over cents). -/
def cartTotal (c : List CartItem) : Int :=
  (c.map (fun i => i.price * i.quantity)).sum

/-- User-visible adjustment notices emitted by the cart view via
`messages.warning` (views.py lines 50 and 60). -/
inductive Notice where
  | removedUnavailable (pid : Nat) (cachedName : String)
  | stockClamped (pid : Nat) (name : String)
deriving Repr, DecidableEq

/-- The reconciliation loop of the cart view (views.py lines 42-61): for
each line fetch the active product; a missing or inactive product drops the
line with a warning naming the cached name; a finite stock smaller than the
quantity clamps the quantity to the stock with a warning; the line's price
is refreshed from the product (the cached name is left as stored). -/
def cartViewValidate (catalog : List Product) : List CartItem → List CartItem × List Notice
  | [] => ([], [])
  | item :: rest =>
    let r := cartViewValidate catalog rest
    match getActive catalog item.id with
    | none => (r.1, Notice.removedUnavailable item.id item.name :: r.2)
    | some p =>
      let q : Int :=
        match p.stock with
        | some s => if item.quantity > s then s else item.quantity
        | none => item.quantity
      let clamp : List Notice :=
        match p.stock with
        | some s => if item.quantity > s then [Notice.stockClamped p.id p.name] else []
        | none => []
      ({ item with quantity := q, price := p.price } :: r.1, clamp ++ r.2)

/-- The cart view endpoint (views.py, def cart): reconcile, persist the
validated cart and recompute cart_count. -/
def cart (catalog : List Product) (s : Session) : Session × List Notice :=
  let r := cartViewValidate catalog s.cart
  ({ s with cart := r.1, cart_count := sumQty r.1 }, r.2)

/-- Result of the add_to_cart endpoint (views.py, def add_to_cart).
`missingId` is the falsy-product_id rejection; `notFound` is the
`get_object_or_404` failure (missing or inactive product), surfaced through
the generic exception handler; `insufficient` carries the available stock;
`ok` carries the recomputed cart_count and the product name echoed in the
success message. -/
inductive AddResult where
  | missingId
  | notFound
  | insufficient (available : Int)
  | ok (cart_count : Int) (name : String)
deriving Repr, DecidableEq

/-- The merge-or-append loop of add_to_cart (views.py lines 327-350): the
first cart line with the product's id gets the summed quantity, after a
stock check on the sum; if no line matches, a fresh line built from the
current product record is appended at the end.  `.error s` is the
insufficient-stock rejection carrying the available stock. -/
def addToCartList (p : Product) (qty : Int) : List CartItem → Except Int (List CartItem)
  | [] => .ok [⟨p.id, p.name, p.price, p.image, qty⟩]
  | item :: rest =>
    if item.id == p.id then
      let nq := item.quantity + qty
      match p.stock with
      | some s =>
        if nq > s then .error s
        else .ok ({ item with quantity := nq } :: rest)
      | none => .ok ({ item with quantity := nq } :: rest)
    else
      (addToCartList p qty rest).map (item :: ·)

/-- The add_to_cart endpoint (views.py, def add_to_cart).  `product_id` is
`data.get('product_id')`; absent (`none`) or `0` is falsy and rejected.
`qty` is `int(data.get('quantity', 1))`.  A finite stock smaller than the
requested quantity rejects before the cart is touched; otherwise the cart
is merged/appended and cart_count recomputed.  On any rejection the session
is unchanged. -/
def add_to_cart (catalog : List Product) (product_id : Option Nat) (qty : Int)
    (s : Session) : Session × AddResult :=
  match product_id with
  | none => (s, .missingId)
  | some pid =>
    if pid == 0 then (s, .missingId)
    else
      match getActive catalog pid with
      | none => (s, .notFound)
      | some p =>
        let go : Session × AddResult :=
          match addToCartList p qty s.cart with
          | .error avail => (s, .insufficient avail)
          | .ok c =>
            ({ s with cart := c, cart_count := sumQty c }, .ok (sumQty c) p.name)
        match p.stock with
        | some st => if qty > st then (s, .insufficient st) else go
        | none => go

/-- One entry of the update_cart JSON payload; a missing `id` or `quantity`
key is `none` (such entries are skipped by the view). -/
structure UpdateEntry where
  pid : Option Nat
  qty : Option Int
deriving Repr, DecidableEq

/-- Result of the update_cart endpoint. `badProduct` is the
`get_object_or_404` failure surfaced through the generic exception
handler. -/
inductive UpdateResult where
  | badProduct
  | insufficient (name : String) (available : Int)
  | ok (cart_count : Int)
deriving Repr, DecidableEq

/-- The validation loop of update_cart (views.py lines 377-401): entries
missing a field are skipped; a non-positive quantity drops the entry;
a missing/inactive product or an over-stock quantity rejects the whole
update; an accepted entry becomes a line rebuilt from the current product
record (name, price, image) with the submitted quantity. -/
def validateUpdate (catalog : List Product) :
    List UpdateEntry → Except UpdateResult (List CartItem)
  | [] => .ok []
  | e :: rest =>
    match e.pid, e.qty with
    | some pid, some q =>
      if q ≤ 0 then validateUpdate catalog rest
      else
        match getActive catalog pid with
        | none => .error .badProduct
        | some p =>
          match p.stock with
          | some s =>
            if q > s then .error (.insufficient p.name s)
            else (validateUpdate catalog rest).map (⟨pid, p.name, p.price, p.image, q⟩ :: ·)
          | none => (validateUpdate catalog rest).map (⟨pid, p.name, p.price, p.image, q⟩ :: ·)
    | _, _ => validateUpdate catalog rest

/-- The update_cart endpoint (views.py, def update_cart): on success the
session cart is replaced wholesale by the validated list and cart_count
recomputed; on rejection the session is unchanged. -/
def update_cart (catalog : List Product) (payload : List UpdateEntry) (s : Session) :
    Session × UpdateResult :=
  match validateUpdate catalog payload with
  | .error r => (s, r)
  | .ok v => ({ s with cart := v, cart_count := sumQty v }, .ok (sumQty v))

/-- Result of the remove_from_cart endpoint. -/
inductive RemoveResult where
  | missingId
  | ok (cart_count : Int)
deriving Repr, DecidableEq

/-- The remove_from_cart endpoint (views.py, def remove_from_cart): filter
out every line whose id matches, recompute cart_count.  No catalog access
and no quantity check. -/
def remove_from_cart (product_id : Option Nat) (s : Session) : Session × RemoveResult :=
  match product_id with
  | none => (s, .missingId)
  | some pid =>
    if pid == 0 then (s, .missingId)
    else
      let c := s.cart.filter (fun item => item.id != pid)
      ({ s with cart := c, cart_count := sumQty c }, .ok (sumQty c))

/-- A persisted order row (models.py, class Order), restricted to the fields
checkout writes.  `items` is the frozen snapshot `json.dumps(validated_cart)`
kept in structured form. -/
structure Order where
  id : Nat
  name : String
  email : String
  phone : String
  address : String
  payment_method : String
  status : String
  items : List CartItem
  total : Int
deriving Repr, DecidableEq

/-- The submitted checkout form (forms.py, class OrderForm).  Django's field
validation is abstracted into the `is_valid` flag. -/
structure OrderForm where
  name : String
  email : String
  phone : String
  address : String
  payment_method : String
  is_valid : Bool
deriving Repr, DecidableEq

/-- The outcome of a checkout request: the pre-flight redirects (empty cart,
over-stock line, unavailable line), the rendered form page (GET request or
invalid POST), or the success redirect carrying the new order id. -/
inductive CheckoutResult where
  | emptyCart
  | insufficient (name : String) (available : Int)
  | unavailable (cachedName : String)
  | renderForm (total : Int)
  | success (order_id : Nat)
deriving Repr, DecidableEq

/-- The checkout revalidation loop (views.py lines 81-98): a missing or
inactive product, or a finite stock smaller than a line's quantity, aborts
the whole checkout with a redirect (no dropping, no clamping); otherwise
each line's price is refreshed from the product. -/
def revalidate (catalog : List Product) : List CartItem → Except CheckoutResult (List CartItem)
  | [] => .ok []
  | item :: rest =>
    match getActive catalog item.id with
    | none => .error (.unavailable item.name)
    | some p =>
      match p.stock with
      | some s =>
        if item.quantity > s then .error (.insufficient p.name s)
        else (revalidate catalog rest).map ({ item with price := p.price } :: ·)
      | none => (revalidate catalog rest).map ({ item with price := p.price } :: ·)

/-- The in-place update one round of the stock decrement loop applies to a
catalog row (views.py lines 121-124): `product.stock -= item['quantity'];
product.save()` for the row with the line's id, skipped when its stock is
NULL; other rows are untouched. -/
def decRow (item : CartItem) (p : Product) : Product :=
  if p.id == item.id then
    match p.stock with
    | some s => { p with stock := some (s - item.quantity) }
    | none => p
  else p

/-- One round of the stock decrement loop (views.py lines 120-124) over the
whole catalog.  Rows are keyed by primary key, so at most one row matches. -/
def decrementStock (catalog : List Product) (item : CartItem) : List Product :=
  catalog.map (decRow item)

/-- The database-plus-session state a checkout request acts on. -/
structure StoreState where
  catalog : List Product
  orders : List Order
  session : Session
deriving Repr, DecidableEq

/-- Notification attempts made by checkout (the two `send_mail` calls,
views.py lines 144-185); a failed send is only logged. -/
inductive EmailEvent where
  | adminSent (order_id : Nat)
  | adminFailed (order_id : Nat)
  | customerSent (order_id : Nat)
  | customerFailed (order_id : Nat)
deriving Repr, DecidableEq

/-- What a checkout request produces: the new state, the response, and the
log of notification attempts. -/
structure CheckoutOutcome where
  state : StoreState
  result : CheckoutResult
  emails : List EmailEvent
deriving Repr, DecidableEq

/-- The checkout endpoint (views.py, def checkout) with infallible
persistence.  An empty cart redirects.  Revalidation failure redirects with
the session untouched (the view returns before line 101).  Otherwise the
validated cart is persisted to the session WITHOUT recomputing cart_count
(lines 100-102).  A valid POST then saves the order (DB-assigned id, status
pending, items = snapshot of the validated cart, total), runs the stock
decrement loop, attempts the two notification emails (failures logged only,
`adminOk` and `customerOk` say whether each send succeeds), clears the cart,
zeroes cart_count and records the order id; any other request renders the
form. -/
def checkout (isPost : Bool) (form : OrderForm) (adminOk customerOk : Bool)
    (st : StoreState) : CheckoutOutcome :=
  if st.session.cart = [] then ⟨st, .emptyCart, []⟩
  else
    match revalidate st.catalog st.session.cart with
    | .error r => ⟨st, r, []⟩
    | .ok validated =>
      let total := cartTotal validated
      let st1 : StoreState := { st with session := { st.session with cart := validated } }
      if isPost && form.is_valid then
        let oid := st1.orders.length + 1
        let order : Order := ⟨oid, form.name, form.email, form.phone, form.address,
          form.payment_method, "pending", validated, total⟩
        let catalog' := validated.foldl decrementStock st1.catalog
        let emails := [if adminOk then EmailEvent.adminSent oid else EmailEvent.adminFailed oid,
                       if customerOk then EmailEvent.customerSent oid else EmailEvent.customerFailed oid]
        ⟨{ catalog := catalog', orders := st1.orders ++ [order],
           session := ⟨[], 0, some oid⟩ }, .success oid, emails⟩
      else ⟨st1, .renderForm total, []⟩

/-- Which persistence calls of the commit block succeed: `order.save()` and
the k-th `product.save()` of the decrement loop (indexed by the line's
position in the validated cart). -/
structure CommitOracle where
  order_save_ok : Bool
  stock_save_ok : Nat → Bool

/-- The stock decrement loop (views.py lines 120-124) with fallible saves:
each line fetches its product row (`Product.objects.get`, no is_active
filter; a missing row raises), skips the save when stock is NULL, and
otherwise saves the decremented stock — a failed save leaves that row and
aborts the loop (the raised exception ends the request).  Returns the
catalog after the writes that happened and whether the loop completed. -/
def decrementLoop (ok : Nat → Bool) :
    List Product → List CartItem → Nat → List Product × Bool
  | catalog, [], _ => (catalog, true)
  | catalog, item :: rest, k =>
    match getById catalog item.id with
    | none => (catalog, false)
    | some p =>
      match p.stock with
      | none => decrementLoop ok catalog rest (k + 1)
      | some _ =>
        if ok k then decrementLoop ok (decrementStock catalog item) rest (k + 1)
        else (catalog, false)

/-- The POST commit block of checkout (views.py lines 107-124 and 187-193)
with fallible persistence and no surrounding transaction: if `order.save()`
raises, nothing has been written; if a `product.save()` of the decrement
loop raises, the order row and the decrements already written remain and the
session is never cleared.  Returns the resulting state and whether the
commit ran to completion. -/
def commitWithFailures (oracle : CommitOracle) (form : OrderForm) (st : StoreState)
    (validated : List CartItem) (total : Int) : StoreState × Bool :=
  if oracle.order_save_ok then
    let oid := st.orders.length + 1
    let order : Order := ⟨oid, form.name, form.email, form.phone, form.address,
      form.payment_method, "pending", validated, total⟩
    let st1 : StoreState := { st with orders := st.orders ++ [order] }
    match decrementLoop oracle.stock_save_ok st1.catalog validated 0 with
    | (catalog', true) =>
      ({ catalog := catalog', orders := st1.orders,
         session := ⟨[], 0, some oid⟩ }, true)
    | (catalog', false) => ({ st1 with catalog := catalog' }, false)
  else (st, false)

/-- Response of the subscribe endpoint (views.py, def subscribe). -/
inductive SubscribeResult where
  | success
  | emailRequired
deriving Repr, DecidableEq

/-- The subscribe endpoint after JSON parsing (views.py lines 249-282):
`email?` is `data.get('email')`; a missing or empty email is falsy and
rejected.  `Subscriber.objects.get_or_create` keyed on the unique email
column is modelled on the list of stored emails.  The returned Bool says
whether the new-subscriber notification was attempted (only on creation;
the send itself is wrapped in try/except and never changes the outcome). -/
def subscribe (subs : List String) (email? : Option String) :
    List String × SubscribeResult × Bool :=
  match email? with
  | none => (subs, .emailRequired, false)
  | some e =>
    if e = "" then (subs, .emailRequired, false)
    else if e ∈ subs then (subs, .success, false)
    else (subs ++ [e], .success, true)

/-- Repeated submission of the same email to subscribe, returning the final
subscriber store and the per-call (response, notification-attempted) log. -/
def iterateSubscribe (e : String) : Nat → List String → List String × List (SubscribeResult × Bool)
  | 0, subs => (subs, [])
  | n + 1, subs =>
    let r := subscribe subs (some e)
    let rest := iterateSubscribe e n r.1
    (rest.1, (r.2.1, r.2.2) :: rest.2)

/-! Characterizations of the per-line behaviour of the reconciliation
loops, used to state and prove the properties below. -/

/-- What the cart view makes of one stored line (views.py lines 44-55):
dropped when the product is gone or inactive, otherwise kept with the
quantity clamped to a finite stock and the price refreshed. -/
def viewLine (catalog : List Product) (line : CartItem) : Option CartItem :=
  match getActive catalog line.id with
  | none => none
  | some p =>
    some { line with
      price := p.price,
      quantity :=
        match p.stock with
        | some s => if line.quantity > s then s else line.quantity
        | none => line.quantity }

/-- The price refresh checkout revalidation applies to a surviving line
(views.py line 93). -/
def refreshLine (catalog : List Product) (line : CartItem) : CartItem :=
  match getActive catalog line.id with
  | some p => { line with price := p.price }
  | none => line

end Store


namespace Store

/-! Basic facts about catalog lookup. -/

lemma getActive_eq_some {catalog : List Product} {pid : Nat} {p : Product}
    (h : getActive catalog pid = some p) : p.id = pid ∧ p.is_active = true := by
  have h1 := List.find?_some h
  simpa [Bool.and_eq_true, beq_iff_eq] using h1

lemma getById_eq_some {catalog : List Product} {pid : Nat} {p : Product}
    (h : getById catalog pid = some p) : p.id = pid := by
  have h1 := List.find?_some h
  simpa [beq_iff_eq] using h1

/-! The validated cart of the cart view is the line-wise `viewLine` image. -/

lemma cartViewValidate_fst (catalog : List Product) (c : List CartItem) :
    (cartViewValidate catalog c).1 = c.filterMap (viewLine catalog) := by
  induction c with
  | nil => rfl
  | cons item rest ih =>
    cases h : getActive catalog item.id with
    | none => simp [cartViewValidate, viewLine, h, ih]
    | some p => simp [cartViewValidate, viewLine, h, ih]

lemma mem_cartViewValidate {catalog : List Product} {c : List CartItem} {i : CartItem} :
    i ∈ (cartViewValidate catalog c).1 ↔ ∃ line ∈ c, viewLine catalog line = some i := by
  rw [cartViewValidate_fst]
  exact List.mem_filterMap

lemma viewLine_eq_some {catalog : List Product} {line i : CartItem}
    (h : viewLine catalog line = some i) :
    ∃ p, getActive catalog line.id = some p ∧
      i.id = line.id ∧ i.name = line.name ∧ i.image = line.image ∧ i.price = p.price ∧
      i.quantity = (match p.stock with
        | some s => if line.quantity > s then s else line.quantity
        | none => line.quantity) := by
  unfold viewLine at h
  cases hg : getActive catalog line.id with
  | none => rw [hg] at h; exact absurd h (by simp)
  | some p =>
    rw [hg] at h
    refine ⟨p, rfl, ?_⟩
    cases h.symm
    simp

lemma viewLine_of_some {catalog : List Product} {line : CartItem} {p : Product}
    (h : getActive catalog line.id = some p) :
    viewLine catalog line =
      some { line with
        price := p.price,
        quantity := (match p.stock with
          | some s => if line.quantity > s then s else line.quantity
          | none => line.quantity) } := by
  unfold viewLine
  rw [h]

/-! Notices emitted by the cart view. -/

lemma cartViewValidate_removed_mem {catalog : List Product} {c : List CartItem}
    {line : CartItem} (hm : line ∈ c) (h : getActive catalog line.id = none) :
    Notice.removedUnavailable line.id line.name ∈ (cartViewValidate catalog c).2 := by
  induction c with
  | nil => cases hm
  | cons item rest ih =>
    rcases List.mem_cons.1 hm with rfl | hm'
    · cases hg : getActive catalog line.id with
      | none => simp [cartViewValidate, hg]
      | some p => rw [hg] at h; cases h
    · cases hg : getActive catalog item.id with
      | none => simp [cartViewValidate, hg, ih hm']
      | some p =>
        have := ih hm'
        cases hs : p.stock with
        | none => simp [cartViewValidate, hg, hs, this]
        | some s =>
          by_cases hq : item.quantity > s <;> simp [cartViewValidate, hg, hs, hq, this]

lemma cartViewValidate_no_clamp {catalog : List Product} {pid : Nat} {p : Product}
    (hp : getActive catalog pid = some p) (hs : p.stock = none)
    (c : List CartItem) (nm : String) :
    Notice.stockClamped pid nm ∉ (cartViewValidate catalog c).2 := by
  induction c with
  | nil => simp [cartViewValidate]
  | cons item rest ih =>
    cases hg : getActive catalog item.id with
    | none => simp [cartViewValidate, hg, ih]
    | some q =>
      cases hqs : q.stock with
      | none => simp [cartViewValidate, hg, hqs, ih]
      | some s =>
        by_cases hq : item.quantity > s
        · have hne : q.id ≠ pid := by
            intro he
            have hid := (getActive_eq_some hg).1
            rw [hid] at he
            rw [he, hp] at hg
            cases hg
            rw [hqs] at hs
            cases hs
          simp only [cartViewValidate, hg, hqs, if_pos hq, List.singleton_append]
          intro hmem
          rcases List.mem_cons.1 hmem with he | hm2
          · injection he with h1 h2
            exact hne h1.symm
          · exact ih hm2
        · simp [cartViewValidate, hg, hqs, hq, ih]

/-! The refresh applied by checkout revalidation. -/

@[simp] lemma refreshLine_id (catalog : List Product) (line : CartItem) :
    (refreshLine catalog line).id = line.id := by
  unfold refreshLine; cases getActive catalog line.id <;> rfl

@[simp] lemma refreshLine_name (catalog : List Product) (line : CartItem) :
    (refreshLine catalog line).name = line.name := by
  unfold refreshLine; cases getActive catalog line.id <;> rfl

@[simp] lemma refreshLine_quantity (catalog : List Product) (line : CartItem) :
    (refreshLine catalog line).quantity = line.quantity := by
  unfold refreshLine; cases getActive catalog line.id <;> rfl

lemma refreshLine_of_some {catalog : List Product} {line : CartItem} {p : Product}
    (h : getActive catalog line.id = some p) :
    refreshLine catalog line = { line with price := p.price } := by
  unfold refreshLine; rw [h]

lemma sumQty_map_refreshLine (catalog : List Product) (c : List CartItem) :
    sumQty (c.map (refreshLine catalog)) = sumQty c := by
  unfold sumQty
  rw [List.map_map]
  congr 1
  exact List.map_congr_left fun line _ => refreshLine_quantity catalog line

/-! Checkout revalidation. -/

lemma revalidate_ok_iff (catalog : List Product) (c : List CartItem) (v : List CartItem) :
    revalidate catalog c = .ok v ↔
      ((∀ line ∈ c, ∃ p, getActive catalog line.id = some p ∧
          ∀ s, p.stock = some s → line.quantity ≤ s) ∧
        v = c.map (refreshLine catalog)) := by
  induction c generalizing v with
  | nil => simp [revalidate, eq_comm]
  | cons line rest ih =>
    cases hg : getActive catalog line.id with
    | none =>
      simp only [revalidate, hg]
      constructor
      · intro h; cases h
      · rintro ⟨hall, -⟩
        rcases hall line (List.mem_cons_self _ _) with ⟨p, hp, -⟩
        rw [hg] at hp; cases hp
    | some p =>
      cases hs : p.stock with
      | none =>
        simp only [revalidate, hg, hs]
        constructor
        · intro h
          cases hr : revalidate catalog rest with
          | error r => rw [hr] at h; cases h
          | ok w =>
            rw [hr] at h
            rcases (ih w).1 hr with ⟨hall, hw⟩
            cases h
            refine ⟨?_, ?_⟩
            · intro l hl
              rcases List.mem_cons.1 hl with rfl | hl'
              · exact ⟨p, hg, fun s hss => by rw [hss] at hs; cases hs⟩
              · exact hall l hl'
            · simp [hw, refreshLine_of_some hg]
        · rintro ⟨hall, hv⟩
          have hrest : revalidate catalog rest = .ok (rest.map (refreshLine catalog)) :=
            (ih _).2 ⟨fun l hl => hall l (List.mem_cons_of_mem _ hl), rfl⟩
          rw [hrest, hv]
          simp [refreshLine_of_some hg, Except.map]
      | some s =>
        by_cases hq : line.quantity > s
        · simp only [revalidate, hg, hs, if_pos hq]
          constructor
          · intro h; cases h
          · rintro ⟨hall, -⟩
            rcases hall line (List.mem_cons_self _ _) with ⟨p', hp', hb⟩
            rw [hg] at hp'; cases hp'
            exact absurd (hb s hs) (not_le.2 hq)
        · simp only [revalidate, hg, hs, if_neg hq]
          constructor
          · intro h
            cases hr : revalidate catalog rest with
            | error r => rw [hr] at h; cases h
            | ok w =>
              rw [hr] at h
              rcases (ih w).1 hr with ⟨hall, hw⟩
              cases h
              refine ⟨?_, ?_⟩
              · intro l hl
                rcases List.mem_cons.1 hl with rfl | hl'
                · exact ⟨p, hg, fun s' hss => by rw [hss] at hs; cases hs; exact not_lt.1 hq⟩
                · exact hall l hl'
              · simp [hw, refreshLine_of_some hg]
          · rintro ⟨hall, hv⟩
            have hrest : revalidate catalog rest = .ok (rest.map (refreshLine catalog)) :=
              (ih _).2 ⟨fun l hl => hall l (List.mem_cons_of_mem _ hl), rfl⟩
            rw [hrest, hv]
            simp [refreshLine_of_some hg, Except.map]

lemma revalidate_error_of_unavailable {catalog : List Product} {c : List CartItem}
    {line : CartItem} (hm : line ∈ c) (h : getActive catalog line.id = none) :
    ∃ r, revalidate catalog c = .error r := by
  cases hr : revalidate catalog c with
  | error r => exact ⟨r, rfl⟩
  | ok v =>
    rcases ((revalidate_ok_iff catalog c v).1 hr).1 line hm with ⟨p, hp, -⟩
    rw [h] at hp; cases hp

lemma revalidate_error_ne_success {catalog : List Product} {c : List CartItem}
    {r : CheckoutResult} (h : revalidate catalog c = .error r) :
    ∀ oid, r ≠ .success oid := by
  induction c generalizing r with
  | nil => cases h
  | cons line rest ih =>
    intro oid
    cases hg : getActive catalog line.id with
    | none =>
      rw [revalidate, hg] at h
      cases h
      simp
    | some p =>
      cases hs : p.stock with
      | none =>
        rw [revalidate, hg] at h
        simp only [hs] at h
        cases hr : revalidate catalog rest with
        | error r' => rw [hr] at h; cases h; exact ih hr oid
        | ok w => rw [hr] at h; cases h
      | some s =>
        rw [revalidate, hg] at h
        simp only [hs] at h
        by_cases hq : line.quantity > s
        · rw [if_pos hq] at h
          cases h
          simp
        · rw [if_neg hq] at h
          cases hr : revalidate catalog rest with
          | error r' => rw [hr] at h; cases h; exact ih hr oid
          | ok w => rw [hr] at h; cases h

/-! The update_cart validation loop. -/

lemma validateUpdate_ok_mem {catalog : List Product} {payload : List UpdateEntry}
    {v : List CartItem} (h : validateUpdate catalog payload = .ok v) :
    ∀ i ∈ v, ∃ p, getActive catalog i.id = some p ∧
      i.name = p.name ∧ i.price = p.price ∧ 0 < i.quantity ∧
      ∀ s, p.stock = some s → i.quantity ≤ s := by
  induction payload generalizing v with
  | nil =>
    rw [validateUpdate] at h
    cases h
    intro i hi
    cases hi
  | cons e rest ih =>
    intro i hi
    rw [validateUpdate] at h
    rcases he : e.pid with - | pid <;> rcases heq : e.qty with - | q <;> rw [he, heq] at h <;>
      dsimp only at h
    · exact ih h i hi
    · exact ih h i hi
    · exact ih h i hi
    · by_cases hq : q ≤ 0
      · rw [if_pos hq] at h
        exact ih h i hi
      · rw [if_neg hq] at h
        cases hg : getActive catalog pid with
        | none => rw [hg] at h; cases h
        | some p =>
          rw [hg] at h
          dsimp only at h
          cases hs : p.stock with
          | some s =>
            rw [hs] at h
            dsimp only at h
            by_cases hqs : q > s
            · rw [if_pos hqs] at h; cases h
            · rw [if_neg hqs] at h
              cases hr : validateUpdate catalog rest with
              | error r => rw [hr] at h; cases h
              | ok w =>
                rw [hr] at h
                cases h
                rcases List.mem_cons.1 hi with rfl | hi2
                · refine ⟨p, hg, rfl, rfl, lt_of_not_le hq, ?_⟩
                  intro s2 hs2
                  rw [hs] at hs2
                  cases hs2
                  exact not_lt.1 hqs
                · exact ih hr i hi2
          | none =>
            rw [hs] at h
            dsimp only at h
            cases hr : validateUpdate catalog rest with
            | error r => rw [hr] at h; cases h
            | ok w =>
              rw [hr] at h
              cases h
              rcases List.mem_cons.1 hi with rfl | hi2
              · refine ⟨p, hg, rfl, rfl, lt_of_not_le hq, ?_⟩
                intro s2 hs2
                rw [hs] at hs2
                cases hs2
              · exact ih hr i hi2

lemma validateUpdate_ok_ids {catalog : List Product} {payload : List UpdateEntry}
    {v : List CartItem} (h : validateUpdate catalog payload = .ok v) :
    (v.map CartItem.id).Sublist (payload.filterMap UpdateEntry.pid) := by
  induction payload generalizing v with
  | nil =>
    rw [validateUpdate] at h
    cases h
    simp
  | cons e rest ih =>
    rw [validateUpdate] at h
    rcases he : e.pid with - | pid <;> rcases heq : e.qty with - | q <;> rw [he, heq] at h <;>
      dsimp only at h
    · simpa [List.filterMap_cons, he] using ih h
    · simpa [List.filterMap_cons, he] using ih h
    · simpa [List.filterMap_cons, he] using (ih h).trans (List.sublist_cons_self pid _)
    · by_cases hq : q ≤ 0
      · rw [if_pos hq] at h
        simpa [List.filterMap_cons, he] using (ih h).trans (List.sublist_cons_self pid _)
      · rw [if_neg hq] at h
        cases hg : getActive catalog pid with
        | none => rw [hg] at h; cases h
        | some p =>
          rw [hg] at h
          have step : ∀ (w : List CartItem), validateUpdate catalog rest = .ok w →
              v = (⟨pid, p.name, p.price, p.image, q⟩ : CartItem) :: w →
              (v.map CartItem.id).Sublist (List.filterMap UpdateEntry.pid (e :: rest)) := by
            intro w hw hv
            subst hv
            simpa [List.filterMap_cons, he] using (ih hw).cons₂ pid
          dsimp only at h
          cases hs : p.stock with
          | some s =>
            rw [hs] at h
            dsimp only at h
            by_cases hqs : q > s
            · rw [if_pos hqs] at h; cases h
            · rw [if_neg hqs] at h
              cases hr : validateUpdate catalog rest with
              | error r => rw [hr] at h; cases h
              | ok w => rw [hr] at h; cases h; exact step w hr rfl
          | none =>
            rw [hs] at h
            dsimp only at h
            cases hr : validateUpdate catalog rest with
            | error r => rw [hr] at h; cases h
            | ok w => rw [hr] at h; cases h; exact step w hr rfl

/-! The add_to_cart merge loop. -/

lemma addToCartList_ids {p : Product} {qty : Int} {c c' : List CartItem}
    (h : addToCartList p qty c = .ok c') :
    c'.map CartItem.id =
      if p.id ∈ c.map CartItem.id then c.map CartItem.id
      else c.map CartItem.id ++ [p.id] := by
  induction c generalizing c' with
  | nil =>
    rw [addToCartList] at h
    cases h
    simp
  | cons item rest ih =>
    rw [addToCartList] at h
    by_cases hid : (item.id == p.id) = true
    · rw [if_pos hid] at h
      have hidq : item.id = p.id := by simpa using hid
      cases hs : p.stock with
      | some s =>
        rw [hs] at h
        dsimp only at h
        by_cases hgt : item.quantity + qty > s
        · rw [if_pos hgt] at h; cases h
        · rw [if_neg hgt] at h
          cases h
          simp [hidq]
      | none =>
        rw [hs] at h
        cases h
        simp [hidq]
    · rw [if_neg hid] at h
      have hne : item.id ≠ p.id := by simpa using hid
      cases hr : addToCartList p qty rest with
      | error a => rw [hr] at h; cases h
      | ok c2 =>
        rw [hr] at h
        simp only [Except.map] at h
        cases h
        by_cases hmem : p.id ∈ rest.map CartItem.id <;>
          simp [ih hr, hmem, hne, Ne.symm hne]

lemma addToCartList_mem {p : Product} {qty : Int} {c c' : List CartItem}
    (h : addToCartList p qty c = .ok c') :
    ∀ i ∈ c', i ∈ c ∨
      (∃ old ∈ c, old.id = p.id ∧ i = { old with quantity := old.quantity + qty } ∧
        ∀ s, p.stock = some s → old.quantity + qty ≤ s) ∨
      i = (⟨p.id, p.name, p.price, p.image, qty⟩ : CartItem) := by
  induction c generalizing c' with
  | nil =>
    rw [addToCartList] at h
    cases h
    intro i hi
    rcases List.mem_singleton.1 hi with rfl
    exact Or.inr (Or.inr rfl)
  | cons item rest ih =>
    intro i hi
    rw [addToCartList] at h
    by_cases hid : (item.id == p.id) = true
    · rw [if_pos hid] at h
      have hidq : item.id = p.id := by simpa using hid
      cases hs : p.stock with
      | some s =>
        rw [hs] at h
        dsimp only at h
        by_cases hgt : item.quantity + qty > s
        · rw [if_pos hgt] at h; cases h
        · rw [if_neg hgt] at h
          have hb : ∀ s2 : Int, (some s : Option Int) = some s2 →
              item.quantity + qty ≤ s2 := by
            intro s2 hs2
            injection hs2 with he
            rw [← he]
            exact not_lt.1 hgt
          cases h
          rcases List.mem_cons.1 hi with rfl | hi2
          · exact Or.inr (Or.inl ⟨item, List.mem_cons_self _ _, hidq, rfl, hb⟩)
          · exact Or.inl (List.mem_cons_of_mem _ hi2)
      | none =>
        rw [hs] at h
        have hb : ∀ s2 : Int, (none : Option Int) = some s2 →
            item.quantity + qty ≤ s2 := by
          intro s2 hs2
          cases hs2
        cases h
        rcases List.mem_cons.1 hi with rfl | hi2
        · exact Or.inr (Or.inl ⟨item, List.mem_cons_self _ _, hidq, rfl, hb⟩)
        · exact Or.inl (List.mem_cons_of_mem _ hi2)
    · rw [if_neg hid] at h
      cases hr : addToCartList p qty rest with
      | error a => rw [hr] at h; cases h
      | ok c2 =>
        rw [hr] at h
        simp only [Except.map] at h
        cases h
        rcases List.mem_cons.1 hi with rfl | hi2
        · exact Or.inl (List.mem_cons_self _ _)
        · rcases ih hr i hi2 with h1 | ⟨old, ho, rest2⟩ | h3
          · exact Or.inl (List.mem_cons_of_mem _ h1)
          · exact Or.inr (Or.inl ⟨old, List.mem_cons_of_mem _ ho, rest2⟩)
          · exact Or.inr (Or.inr h3)

lemma filter_id_eq_nil_of_not_mem {c : List CartItem} {pid : Nat}
    (h : pid ∉ c.map CartItem.id) :
    c.filter (fun i => i.id == pid) = [] := by
  induction c with
  | nil => rfl
  | cons item rest ih =>
    simp only [List.map_cons, List.mem_cons, not_or] at h
    rw [List.filter_cons]
    have hne : (item.id == pid) = false := by
      rw [beq_eq_false_iff_ne]
      exact fun hc => h.1 hc.symm
    rw [hne]
    exact ih h.2
    
lemma addToCartList_filter_sum {p : Product} {qty : Int} {c c' : List CartItem}
    (hnd : (c.map CartItem.id).Nodup) (h : addToCartList p qty c = .ok c') :
    (c'.filter (fun i => i.id == p.id)).map CartItem.quantity =
      [sumQty (c.filter (fun i => i.id == p.id)) + qty] := by
  induction c generalizing c' with
  | nil =>
    rw [addToCartList] at h
    cases h
    rw [List.filter_cons]
    simp only [beq_self_eq_true, if_true, List.filter_nil, List.map_cons, List.map_nil]
    simp [sumQty]
  | cons item rest ih =>
    rw [addToCartList] at h
    have hnd2 : (rest.map CartItem.id).Nodup := (List.nodup_cons.1 hnd).2
    have hhead : item.id ∉ rest.map CartItem.id := (List.nodup_cons.1 hnd).1
    by_cases hid : (item.id == p.id) = true
    · have hidq : item.id = p.id := by simpa using hid
      rw [if_pos hid] at h
      have hnil : rest.filter (fun i => i.id == p.id) = [] :=
        filter_id_eq_nil_of_not_mem (hidq ▸ hhead)
      have hgoal : ∀ (c2 : List CartItem),
          c2 = { item with quantity := item.quantity + qty } :: rest →
          (c2.filter (fun i => i.id == p.id)).map CartItem.quantity =
            [sumQty ((item :: rest).filter (fun i => i.id == p.id)) + qty] := by
        rintro c2 rfl
        rw [List.filter_cons, List.filter_cons]
        simp only [hid]
        rw [hnil]
        simp [sumQty]
      cases hs : p.stock with
      | some s =>
        rw [hs] at h
        dsimp only at h
        by_cases hgt : item.quantity + qty > s
        · rw [if_pos hgt] at h; cases h
        · rw [if_neg hgt] at h
          cases h
          exact hgoal _ rfl
      | none =>
        rw [hs] at h
        cases h
        exact hgoal _ rfl
    · rw [if_neg hid] at h
      cases hr : addToCartList p qty rest with
      | error a => rw [hr] at h; cases h
      | ok c2 =>
        rw [hr] at h
        simp only [Except.map] at h
        cases h
        rw [List.filter_cons, List.filter_cons]
        simp only [hid]
        exact ih hnd2 hr

lemma addToCartList_merge {p : Product} {qty : Int} {c c' : List CartItem} {old : CartItem}
    (hnd : (c.map CartItem.id).Nodup) (hold : old ∈ c) (hid : old.id = p.id)
    (h : addToCartList p qty c = .ok c') :
    (∀ i ∈ c', i.id = p.id → i = { old with quantity := old.quantity + qty }) ∧
    (∀ s2, p.stock = some s2 → old.quantity + qty ≤ s2) := by
  induction c generalizing c' with
  | nil => cases hold
  | cons item rest ih =>
    rw [addToCartList] at h
    have hnd2 : (rest.map CartItem.id).Nodup := (List.nodup_cons.1 hnd).2
    have hhead : item.id ∉ rest.map CartItem.id := (List.nodup_cons.1 hnd).1
    by_cases hib : (item.id == p.id) = true
    · have hiq : item.id = p.id := by simpa using hib
      have holditem : old = item := by
        rcases List.mem_cons.1 hold with rfl | hmem
        · rfl
        · exfalso
          apply hhead
          rw [hiq, ← hid]
          exact List.mem_map_of_mem CartItem.id hmem
      subst holditem
      rw [if_pos hib] at h
      have hrest : ∀ i ∈ rest, i.id ≠ p.id := by
        intro i hi hc
        apply hhead
        rw [hiq, ← hc]
        exact List.mem_map_of_mem CartItem.id hi
      have hgoal : ∀ (c2 : List CartItem),
          c2 = { old with quantity := old.quantity + qty } :: rest →
          ∀ i ∈ c2, i.id = p.id → i = { old with quantity := old.quantity + qty } := by
        rintro c2 rfl i hi hip
        rcases List.mem_cons.1 hi with rfl | hi2
        · rfl
        · exact absurd hip (hrest i hi2)
      cases hs : p.stock with
      | some s =>
        rw [hs] at h
        dsimp only at h
        by_cases hgt : old.quantity + qty > s
        · rw [if_pos hgt] at h; cases h
        · rw [if_neg hgt] at h
          have hb : ∀ s2 : Int, (some s : Option Int) = some s2 →
              old.quantity + qty ≤ s2 := by
            intro s2 hs2
            injection hs2 with he
            rw [← he]
            exact not_lt.1 hgt
          cases h
          exact ⟨hgoal _ rfl, hb⟩
      | none =>
        rw [hs] at h
        have hb : ∀ s2 : Int, (none : Option Int) = some s2 →
            old.quantity + qty ≤ s2 := by
          intro s2 hs2
          cases hs2
        cases h
        exact ⟨hgoal _ rfl, hb⟩
    · have hne : item.id ≠ p.id := by simpa using hib
      have hold2 : old ∈ rest := by
        rcases List.mem_cons.1 hold with rfl | hmem
        · exact absurd hid hne
        · exact hmem
      rw [if_neg hib] at h
      cases hr : addToCartList p qty rest with
      | error a => rw [hr] at h; cases h
      | ok c2 =>
        rw [hr] at h
        simp only [Except.map] at h
        cases h
        refine ⟨?_, (ih hnd2 hold2 hr).2⟩
        intro i hi hip
        rcases List.mem_cons.1 hi with rfl | hi2
        · exact absurd hip hne
        · exact (ih hnd2 hold2 hr).1 i hi2 hip

lemma addToCartList_fresh {p : Product} {qty : Int} {c c' : List CartItem}
    (hno : ∀ old ∈ c, old.id ≠ p.id)
    (h : addToCartList p qty c = .ok c') :
    ∀ i ∈ c', i.id = p.id → i = (⟨p.id, p.name, p.price, p.image, qty⟩ : CartItem) := by
  induction c generalizing c' with
  | nil =>
    rw [addToCartList] at h
    cases h
    intro i hi hip
    rcases List.mem_singleton.1 hi with rfl
    rfl
  | cons item rest ih =>
    rw [addToCartList] at h
    have hib : ¬ ((item.id == p.id) = true) := by
      simpa using hno item (List.mem_cons_self _ _)
    rw [if_neg hib] at h
    cases hr : addToCartList p qty rest with
    | error a => rw [hr] at h; cases h
    | ok c2 =>
      rw [hr] at h
      simp only [Except.map] at h
      cases h
      intro i hi hip
      rcases List.mem_cons.1 hi with rfl | hi2
      · exact absurd hip (by simpa using hib)
      · exact ih (fun old ho => hno old (List.mem_cons_of_mem _ ho)) hr i hi2 hip

lemma addToCartList_stock_none {p : Product} (hs : p.stock = none) (qty : Int) :
    ∀ c : List CartItem, ∃ c', addToCartList p qty c = .ok c'
  | [] => ⟨[⟨p.id, p.name, p.price, p.image, qty⟩], rfl⟩
  | item :: rest => by
    rw [addToCartList]
    by_cases hid : (item.id == p.id) = true
    · rw [if_pos hid, hs]
      exact ⟨_, rfl⟩
    · rw [if_neg hid]
      rcases addToCartList_stock_none hs qty rest with ⟨c', hc⟩
      exact ⟨item :: c', by rw [hc]; rfl⟩

/-! The stock decrement loop of checkout. -/

lemma decRow_id (item : CartItem) (p : Product) : (decRow item p).id = p.id := by
  unfold decRow
  by_cases h : (p.id == item.id) = true
  · rw [if_pos h]
    rcases p.stock with - | s <;> rfl
  · rw [if_neg h]

lemma getById_map_decRow (item : CartItem) (catalog : List Product) (j : Nat) :
    getById (catalog.map (decRow item)) j = (getById catalog j).map (decRow item) := by
  induction catalog with
  | nil => rfl
  | cons q rest ih =>
    unfold getById at ih ⊢
    rw [List.map_cons]
    by_cases h : (q.id == j) = true
    · rw [List.find?_cons_of_pos (p := fun x : Product => x.id == j) _
          (by simp only [decRow_id]; exact h),
        List.find?_cons_of_pos (p := fun x : Product => x.id == j) _ h]
      rfl
    · rw [List.find?_cons_of_neg (p := fun x : Product => x.id == j) _
          (by simp only [decRow_id]; exact h),
        List.find?_cons_of_neg (p := fun x : Product => x.id == j) _ h]
      exact ih

lemma getById_decrementStock_ne {catalog : List Product} {item : CartItem} {j : Nat}
    (h : j ≠ item.id) :
    getById (decrementStock catalog item) j = getById catalog j := by
  unfold decrementStock
  rw [getById_map_decRow]
  cases hg : getById catalog j with
  | none => rfl
  | some p =>
    have hid := getById_eq_some hg
    have hrow : decRow item p = p := by
      unfold decRow
      rw [if_neg]
      rw [hid]
      simpa using h
    rw [Option.map_some', hrow]

lemma getById_decrementStock_self (catalog : List Product) (item : CartItem) :
    getById (decrementStock catalog item) item.id =
      (getById catalog item.id).map
        (fun p => { p with stock := p.stock.map (fun s => s - item.quantity) }) := by
  unfold decrementStock
  rw [getById_map_decRow]
  cases hg : getById catalog item.id with
  | none => rfl
  | some p =>
    have hid := getById_eq_some hg
    rw [Option.map_some', Option.map_some']
    have hcond : (p.id == item.id) = true := by rw [hid]; exact beq_self_eq_true item.id
    unfold decRow
    rw [if_pos hcond]
    rcases p with ⟨pi, pn, pp, pim, pst, pa⟩
    cases pst <;> rfl

lemma foldl_decrementStock_not_mem (v : List CartItem) (catalog : List Product) {j : Nat}
    (h : j ∉ v.map CartItem.id) :
    getById (v.foldl decrementStock catalog) j = getById catalog j := by
  induction v generalizing catalog with
  | nil => rfl
  | cons item rest ih =>
    simp only [List.map_cons, List.mem_cons, not_or] at h
    rw [List.foldl_cons]
    exact (ih _ h.2).trans (getById_decrementStock_ne h.1)

lemma foldl_decrementStock_mem {v : List CartItem} (catalog : List Product)
    (hnd : (v.map CartItem.id).Nodup) {item : CartItem} (hm : item ∈ v) :
    getById (v.foldl decrementStock catalog) item.id =
      (getById catalog item.id).map
        (fun p => { p with stock := p.stock.map (fun s => s - item.quantity) }) := by
  induction v generalizing catalog with
  | nil => cases hm
  | cons x rest ih =>
    have hnd2 := (List.nodup_cons.1 hnd).2
    have hx : x.id ∉ rest.map CartItem.id := (List.nodup_cons.1 hnd).1
    rw [List.foldl_cons]
    rcases List.mem_cons.1 hm with rfl | hm2
    · exact (foldl_decrementStock_not_mem rest _ hx).trans
        (getById_decrementStock_self catalog item)
    · have hne : item.id ≠ x.id := by
        intro he
        exact hx (he ▸ List.mem_map_of_mem CartItem.id hm2)
      rw [ih _ hnd2 hm2, getById_decrementStock_ne hne]

/-! Inversion of the add_to_cart endpoint. -/

lemma add_to_cart_ok {catalog : List Product} {pid : Nat} {qty : Int} {s : Session}
    {cc : Int} {nm : String}
    (h : (add_to_cart catalog (some pid) qty s).2 = .ok cc nm) :
    ∃ p c', getActive catalog pid = some p ∧
      addToCartList p qty s.cart = .ok c' ∧
      (add_to_cart catalog (some pid) qty s).1 =
        { s with cart := c', cart_count := sumQty c' } ∧
      (∀ st2, p.stock = some st2 → qty ≤ st2) ∧
      nm = p.name ∧ cc = sumQty c' := by
  by_cases h0 : (pid == 0) = true
  · simp [add_to_cart, h0] at h
  · cases hg : getActive catalog pid with
    | none => simp [add_to_cart, h0, hg] at h
    | some p =>
      cases hs : p.stock with
      | some st =>
        by_cases hq : qty > st
        · simp [add_to_cart, h0, hg, hs, hq] at h
        · cases hr : addToCartList p qty s.cart with
          | error a => simp [add_to_cart, h0, hg, hs, hq, hr] at h
          | ok c' =>
            simp [add_to_cart, h0, hg, hs, hq, hr] at h
            refine ⟨p, c', rfl, hr, ?_, ?_, h.2.symm, h.1.symm⟩
            · simp [add_to_cart, h0, hg, hs, hq, hr]
            · intro st2 hst2
              rw [hs] at hst2
              injection hst2 with he
              rw [← he]
              exact not_lt.1 hq
      | none =>
        cases hr : addToCartList p qty s.cart with
        | error a => simp [add_to_cart, h0, hg, hs, hr] at h
        | ok c' =>
          simp [add_to_cart, h0, hg, hs, hr] at h
          refine ⟨p, c', rfl, hr, ?_, ?_, h.2.symm, h.1.symm⟩
          · simp [add_to_cart, h0, hg, hs, hr]
          · intro st2 hst2
            rw [hs] at hst2
            cases hst2

lemma add_to_cart_fst_cases (catalog : List Product) (pid? : Option Nat) (qty : Int)
    (s : Session) :
    (add_to_cart catalog pid? qty s).1 = s ∨
    ∃ c, (add_to_cart catalog pid? qty s).1 =
      { s with cart := c, cart_count := sumQty c } := by
  cases pid? with
  | none => exact Or.inl rfl
  | some pid =>
    by_cases h0 : (pid == 0) = true
    · simp [add_to_cart, h0]
    · cases hg : getActive catalog pid with
      | none => simp [add_to_cart, h0, hg]
      | some p =>
        cases hs : p.stock with
        | some st =>
          by_cases hq : qty > st
          · simp [add_to_cart, h0, hg, hs, hq]
          · cases hr : addToCartList p qty s.cart with
            | error a => simp [add_to_cart, h0, hg, hs, hq, hr]
            | ok c' => exact Or.inr ⟨c', by simp [add_to_cart, h0, hg, hs, hq, hr]⟩
        | none =>
          cases hr : addToCartList p qty s.cart with
          | error a => simp [add_to_cart, h0, hg, hs, hr]
          | ok c' => exact Or.inr ⟨c', by simp [add_to_cart, h0, hg, hs, hr]⟩

/-! Ids of the validated view cart form a sublist of the stored ids. -/

lemma cartViewValidate_ids_sublist (catalog : List Product) (c : List CartItem) :
    ((cartViewValidate catalog c).1.map CartItem.id).Sublist (c.map CartItem.id) := by
  induction c with
  | nil => simp [cartViewValidate]
  | cons item rest ih =>
    cases hg : getActive catalog item.id with
    | none =>
      simp only [cartViewValidate, hg, List.map_cons]
      exact ih.trans (List.sublist_cons_self _ _)
    | some p =>
      simp only [cartViewValidate, hg, List.map_cons]
      exact ih.cons₂ item.id

/-! Branch characterizations of the checkout endpoint. -/

lemma checkout_empty {isPost : Bool} {form : OrderForm} {a c : Bool} {st : StoreState}
    (h : st.session.cart = []) :
    checkout isPost form a c st = ⟨st, .emptyCart, []⟩ := by
  rw [checkout, if_pos h]

lemma checkout_reject {isPost : Bool} {form : OrderForm} {a c : Bool} {st : StoreState}
    {r : CheckoutResult} (hne : st.session.cart ≠ [])
    (hrv : revalidate st.catalog st.session.cart = .error r) :
    checkout isPost form a c st = ⟨st, r, []⟩ := by
  rw [checkout, if_neg hne, hrv]

lemma checkout_render {isPost : Bool} {form : OrderForm} {a c : Bool} {st : StoreState}
    {v : List CartItem} (hne : st.session.cart ≠ [])
    (hrv : revalidate st.catalog st.session.cart = .ok v)
    (hcond : (isPost && form.is_valid) = false) :
    checkout isPost form a c st =
      ⟨{ st with session := { st.session with cart := v } },
       .renderForm (cartTotal v), []⟩ := by
  rw [checkout, if_neg hne, hrv]
  dsimp only
  rw [hcond]
  rfl

lemma checkout_commit {isPost : Bool} {form : OrderForm} {a c : Bool} {st : StoreState}
    {v : List CartItem} (hne : st.session.cart ≠ [])
    (hrv : revalidate st.catalog st.session.cart = .ok v)
    (hcond : (isPost && form.is_valid) = true) :
    checkout isPost form a c st =
      ⟨{ catalog := v.foldl decrementStock st.catalog,
         orders := st.orders ++ [⟨st.orders.length + 1, form.name, form.email,
           form.phone, form.address, form.payment_method, "pending", v, cartTotal v⟩],
         session := ⟨[], 0, some (st.orders.length + 1)⟩ },
       .success (st.orders.length + 1),
       [if a then EmailEvent.adminSent (st.orders.length + 1)
          else EmailEvent.adminFailed (st.orders.length + 1),
        if c then EmailEvent.customerSent (st.orders.length + 1)
          else EmailEvent.customerFailed (st.orders.length + 1)]⟩ := by
  rw [checkout, if_neg hne, hrv]
  dsimp only
  rw [hcond]
  rfl

/-! The subscribe endpoint. -/

lemma subscribe_of_mem {subs : List String} {e : String} (he : e ≠ "") (hm : e ∈ subs) :
    subscribe subs (some e) = (subs, .success, false) := by
  rw [subscribe, if_neg he, if_pos hm]

lemma subscribe_of_not_mem {subs : List String} {e : String} (he : e ≠ "") (hm : e ∉ subs) :
    subscribe subs (some e) = (subs ++ [e], .success, true) := by
  rw [subscribe, if_neg he, if_neg hm]

lemma iterateSubscribe_of_mem {subs : List String} {e : String}
    (he : e ≠ "") (hm : e ∈ subs) :
    ∀ n, iterateSubscribe e n subs =
      (subs, List.replicate n (SubscribeResult.success, false))
  | 0 => rfl
  | n + 1 => by
    rw [iterateSubscribe, subscribe_of_mem he hm]
    dsimp only
    rw [iterateSubscribe_of_mem he hm n, List.replicate_succ]

/-! ## Claim theorems -/

/-- C10: newsletter subscription is idempotent at the public interface.  For
every provided (non-empty) email, submitting it any number of times returns
success each time, exactly one Subscriber record for that email exists
afterwards (the email column is unique and get_or_create is keyed on it),
and the new-subscriber notification is attempted only on the first,
creating, submission. -/
theorem C10_subscribe_idempotent (e : String) (subs : List String) (n : Nat)
    (he : e ≠ "") (hm : e ∉ subs) :
    (∀ r ∈ (iterateSubscribe e (n + 1) subs).2, r.1 = SubscribeResult.success) ∧
    (iterateSubscribe e (n + 1) subs).1.count e = 1 ∧
    (iterateSubscribe e (n + 1) subs).2.map Prod.snd = true :: List.replicate n false := by
  have hmem : e ∈ subs ++ [e] := List.mem_append_right _ (List.mem_singleton.2 rfl)
  rw [iterateSubscribe, subscribe_of_not_mem he hm]
  dsimp only
  rw [iterateSubscribe_of_mem he hmem n]
  refine ⟨?_, ?_, ?_⟩
  · intro r hr
    rcases List.mem_cons.1 hr with rfl | hr2
    · rfl
    · rw [(List.mem_replicate.1 hr2).2]
  · rw [List.count_append, List.count_eq_zero.2 hm]
    simp
  · simp

/-- Witness for C10: submitting "a@b.c" three times to an empty subscriber
store succeeds every time, leaves one record, and notifies once. -/
theorem C10_subscribe_idempotent_witness :
    (∀ r ∈ (iterateSubscribe "a@b.c" 3 []).2, r.1 = SubscribeResult.success) ∧
    (iterateSubscribe "a@b.c" 3 ([] : List String)).1.count "a@b.c" = 1 ∧
    (iterateSubscribe "a@b.c" 3 []).2.map Prod.snd = true :: List.replicate 2 false :=
  C10_subscribe_idempotent "a@b.c" [] 2 (by decide) (by decide)

/-- C9 counterexample: the claim asserts that a product's stock may be null.
models.py line 24 declares `stock = models.PositiveIntegerField(default=0)`
with no `null=True`, so the column is NOT nullable: the claim's premise is
false at the data model. -/
theorem C9_stock_not_nullable : Product.stockFieldNullable = false := rfl

/-- C9 (amended): the Product model declares `stock` non-nullable
(PositiveIntegerField, default 0), so stock is never null at the model
layer; nevertheless every stock check in the views is guarded by
`product.stock is not None`, so for a product record whose stock IS null
(unlimited) no reconciliation or mutation ever clamps its quantity or
rejects with insufficient stock, at any entry point, for any requested
quantity: the cart view keeps such a line with its quantity unchanged and
never emits a clamp notice for the product; add_to_cart never answers
insufficient-stock for it; checkout revalidation passes its line with only
a price refresh; update_cart accepts any positive quantity for it. -/
theorem C9_null_stock_unlimited (catalog : List Product) (pid : Nat) (p : Product)
    (hp : getActive catalog pid = some p) (hs : p.stock = none) :
    (∀ line : CartItem, line.id = pid →
        viewLine catalog line = some { line with price := p.price }) ∧
    (∀ (c : List CartItem) (nm : String),
        Notice.stockClamped pid nm ∉ (cartViewValidate catalog c).2) ∧
    (∀ (qty : Int) (s : Session) (a : Int),
        (add_to_cart catalog (some pid) qty s).2 ≠ .insufficient a) ∧
    (∀ (line : CartItem) (rest : List CartItem), line.id = pid →
        revalidate catalog (line :: rest) =
          (revalidate catalog rest).map
            (fun w => { line with price := p.price } :: w)) ∧
    (∀ (q : Int) (rest : List UpdateEntry), 0 < q →
        validateUpdate catalog ((⟨some pid, some q⟩ : UpdateEntry) :: rest) =
          (validateUpdate catalog rest).map
            (fun w => (⟨pid, p.name, p.price, p.image, q⟩ : CartItem) :: w)) := by
  refine ⟨?_, ?_, ?_, ?_, ?_⟩
  · intro line hl
    rw [viewLine, hl, hp]
    dsimp only
    rw [hs]
  · exact fun c nm => cartViewValidate_no_clamp hp hs c nm
  · intro qty s a
    by_cases h0 : (pid == 0) = true
    · simp [add_to_cart, h0]
    · rcases addToCartList_stock_none hs qty s.cart with ⟨c2, hc⟩
      simp [add_to_cart, h0, hp, hs, hc]
  · intro line rest hl
    rw [revalidate, hl, hp]
    dsimp only
    rw [hs]
  · intro q rest hq
    rw [validateUpdate]
    dsimp only
    rw [if_neg (not_le.2 hq), hp]
    dsimp only
    rw [hs]

/-- Witness for C9 on a concrete catalog with one null-stock product. -/
theorem C9_null_stock_unlimited_witness :
    (∀ line : CartItem, line.id = 3 →
        viewLine [⟨3, "U", 250, "", none, true⟩] line =
          some { line with price := 250 }) ∧
    (∀ (c : List CartItem) (nm : String),
        Notice.stockClamped 3 nm ∉
          (cartViewValidate [⟨3, "U", 250, "", none, true⟩] c).2) ∧
    (∀ (qty : Int) (s : Session) (a : Int),
        (add_to_cart [⟨3, "U", 250, "", none, true⟩] (some 3) qty s).2 ≠
          .insufficient a) ∧
    (∀ (line : CartItem) (rest : List CartItem), line.id = 3 →
        revalidate [⟨3, "U", 250, "", none, true⟩] (line :: rest) =
          (revalidate [⟨3, "U", 250, "", none, true⟩] rest).map
            (fun w => { line with price := 250 } :: w)) ∧
    (∀ (q : Int) (rest : List UpdateEntry), 0 < q →
        validateUpdate [⟨3, "U", 250, "", none, true⟩]
            ((⟨some 3, some q⟩ : UpdateEntry) :: rest) =
          (validateUpdate [⟨3, "U", 250, "", none, true⟩] rest).map
            (fun w => (⟨3, "U", 250, "", q⟩ : CartItem) :: w)) :=
  C9_null_stock_unlimited [⟨3, "U", 250, "", none, true⟩] 3
    ⟨3, "U", 250, "", none, true⟩ (by decide) rfl

/-- C8: a failure of either notification send (admin or customer) never
changes the checkout outcome — the resulting store state (order persisted,
stock decremented, session cart cleared, last_order_id set) and the
response (including the success redirect with the new order id) are
identical to those of a run in which both sends succeed; only the
notification log differs. -/
theorem C8_notification_best_effort (isPost : Bool) (form : OrderForm)
    (a b : Bool) (st : StoreState) :
    (checkout isPost form a b st).state = (checkout isPost form true true st).state ∧
    (checkout isPost form a b st).result = (checkout isPost form true true st).result := by
  by_cases hne : st.session.cart = []
  · rw [checkout_empty hne, checkout_empty hne]
    exact ⟨rfl, rfl⟩
  · cases hrv : revalidate st.catalog st.session.cart with
    | error r =>
      rw [checkout_reject hne hrv, checkout_reject hne hrv]
      exact ⟨rfl, rfl⟩
    | ok v =>
      by_cases hpv : (isPost && form.is_valid) = true
      · rw [checkout_commit hne hrv hpv, checkout_commit hne hrv hpv]
        exact ⟨rfl, rfl⟩
      · rw [checkout_render hne hrv (Bool.not_eq_true _ ▸ hpv),
          checkout_render hne hrv (Bool.not_eq_true _ ▸ hpv)]
        exact ⟨rfl, rfl⟩

/-- C2 (code-bug evidence): the commit block has no surrounding transaction.
With two validated lines and a failure of the second `product.save()`, the
run ends with the order row persisted, the first product's stock already
decremented and the session cart uncleared — not the pre-commit state the
claim requires. -/
theorem C2_commit_not_atomic :
    (let out := commitWithFailures ⟨true, fun k => k == 0⟩
        ⟨"n", "e", "p", "a", "m", true⟩
        ⟨[⟨1, "A", 500, "", some 5, true⟩, ⟨2, "B", 200, "", some 5, true⟩], [],
         ⟨[⟨1, "A", 500, "", 2⟩, ⟨2, "B", 200, "", 3⟩], 5, none⟩⟩
        [⟨1, "A", 500, "", 2⟩, ⟨2, "B", 200, "", 3⟩] 1600
     out.2 = false ∧
     out.1.orders.map Order.id = [1] ∧
     getById out.1.catalog 1 = some ⟨1, "A", 500, "", some 3, true⟩ ∧
     getById out.1.catalog 2 = some ⟨2, "B", 200, "", some 5, true⟩ ∧
     out.1.session.cart = [⟨1, "A", 500, "", 2⟩, ⟨2, "B", 200, "", 3⟩]) := by
  decide

/-- C5 counterexample: at checkout, a cart line whose product is missing
from the catalog is NOT dropped with a notice: the whole checkout attempt is
rejected and the session cart — dead line included — is left unchanged. -/
theorem C5_checkout_keeps_dead_line :
    (let st : StoreState :=
      ⟨[⟨2, "B", 500, "", some 9, true⟩], [],
       ⟨[⟨1, "gone", 300, "", 1⟩, ⟨2, "B", 500, "", 1⟩], 2, none⟩⟩
     getActive st.catalog 1 = none ∧
     (checkout false ⟨"", "", "", "", "", false⟩ true true st).state.session.cart =
       [⟨1, "gone", 300, "", 1⟩, ⟨2, "B", 500, "", 1⟩] ∧
     (checkout false ⟨"", "", "", "", "", false⟩ true true st).result =
       .unavailable "gone") := by decide

/-- C5 (amended): only the cart view implements the drop policy: it drops
every line whose product is missing or inactive, emits the removal notice
naming the line, and keeps every line whose product is available.  Checkout
instead rejects the whole attempt on such a line — the state (the dead line
included) is unchanged and the checkout never succeeds. -/
theorem C5_unavailable_line_policy :
    (∀ (catalog : List Product) (c : List CartItem) (line : CartItem), line ∈ c →
        getActive catalog line.id = none →
        Notice.removedUnavailable line.id line.name ∈ (cartViewValidate catalog c).2) ∧
    (∀ (catalog : List Product) (c : List CartItem) (i : CartItem),
        i ∈ (cartViewValidate catalog c).1 → getActive catalog i.id ≠ none) ∧
    (∀ (catalog : List Product) (c : List CartItem) (line : CartItem) (p : Product),
        line ∈ c → getActive catalog line.id = some p →
        ∃ i ∈ (cartViewValidate catalog c).1, i.id = line.id ∧ i.name = line.name) ∧
    (∀ (isPost : Bool) (form : OrderForm) (a b : Bool) (st : StoreState)
        (line : CartItem), line ∈ st.session.cart →
        getActive st.catalog line.id = none →
        (checkout isPost form a b st).state = st ∧
        line ∈ (checkout isPost form a b st).state.session.cart ∧
        ∀ oid, (checkout isPost form a b st).result ≠ .success oid) := by
  refine ⟨?_, ?_, ?_, ?_⟩
  · exact fun catalog c line hm h => cartViewValidate_removed_mem hm h
  · intro catalog c i hi
    rcases mem_cartViewValidate.1 hi with ⟨line, hm, hvl⟩
    rcases viewLine_eq_some hvl with ⟨p, hp, hid, -⟩
    rw [hid, hp]
    simp
  · intro catalog c line p hm hp
    exact ⟨_, mem_cartViewValidate.2 ⟨line, hm, viewLine_of_some hp⟩, rfl, rfl⟩
  · intro isPost form a b st line hm h
    have hne : st.session.cart ≠ [] := by
      intro hc
      rw [hc] at hm
      cases hm
    rcases revalidate_error_of_unavailable hm h with ⟨r, hrv⟩
    rw [checkout_reject hne hrv]
    exact ⟨rfl, hm, fun oid => revalidate_error_ne_success hrv oid⟩

/-- Witness for C5 on concrete carts: a dead line produces its removal
notice in the view; a surviving view line has an available product; an
available line is kept; a checkout on a cart with a dead line leaves the
state unchanged, keeps the dead line, and does not succeed. -/
theorem C5_unavailable_line_policy_witness :
    (Notice.removedUnavailable 1 "x" ∈
      (cartViewValidate [] [⟨1, "x", 100, "", 1⟩]).2) ∧
    (getActive [⟨2, "B", 500, "", some 9, true⟩]
      (⟨2, "Bold", 500, "", 1⟩ : CartItem).id ≠ none) ∧
    (∃ i ∈ (cartViewValidate [⟨2, "B", 500, "", some 9, true⟩]
        [⟨2, "Bold", 300, "", 1⟩]).1,
      i.id = (⟨2, "Bold", 300, "", 1⟩ : CartItem).id ∧
        i.name = (⟨2, "Bold", 300, "", 1⟩ : CartItem).name) ∧
    ((checkout true ⟨"n", "e", "p", "a", "m", true⟩ true true
        ⟨[⟨2, "B", 500, "", some 9, true⟩], [],
         ⟨[⟨9, "dead", 100, "", 1⟩], 1, none⟩⟩).state =
      ⟨[⟨2, "B", 500, "", some 9, true⟩], [], ⟨[⟨9, "dead", 100, "", 1⟩], 1, none⟩⟩ ∧
     (⟨9, "dead", 100, "", 1⟩ : CartItem) ∈
       (checkout true ⟨"n", "e", "p", "a", "m", true⟩ true true
        ⟨[⟨2, "B", 500, "", some 9, true⟩], [],
         ⟨[⟨9, "dead", 100, "", 1⟩], 1, none⟩⟩).state.session.cart ∧
     ∀ oid, (checkout true ⟨"n", "e", "p", "a", "m", true⟩ true true
        ⟨[⟨2, "B", 500, "", some 9, true⟩], [],
         ⟨[⟨9, "dead", 100, "", 1⟩], 1, none⟩⟩).result ≠ .success oid) := by
  have h := C5_unavailable_line_policy
  exact ⟨h.1 [] [⟨1, "x", 100, "", 1⟩] ⟨1, "x", 100, "", 1⟩ (by decide) (by decide),
    h.2.1 [⟨2, "B", 500, "", some 9, true⟩] [⟨2, "Bold", 300, "", 1⟩]
      ⟨2, "Bold", 500, "", 1⟩ (by decide),
    h.2.2.1 [⟨2, "B", 500, "", some 9, true⟩] [⟨2, "Bold", 300, "", 1⟩]
      ⟨2, "Bold", 300, "", 1⟩ ⟨2, "B", 500, "", some 9, true⟩ (by decide) (by decide),
    h.2.2.2 true ⟨"n", "e", "p", "a", "m", true⟩ true true
      ⟨[⟨2, "B", 500, "", some 9, true⟩], [], ⟨[⟨9, "dead", 100, "", 1⟩], 1, none⟩⟩
      ⟨9, "dead", 100, "", 1⟩ (by decide) (by decide)⟩

/-- C6 counterexample: the cart view refreshes only the price; the
surviving line keeps its stale cached name "Old" even though the product's
current name is "New" — cached_name is NOT overwritten there. -/
theorem C6_view_keeps_stale_name :
    (cartViewValidate [⟨1, "New", 500, "", some 9, true⟩]
        [⟨1, "Old", 300, "", 1⟩]).1.map CartItem.name = ["Old"] ∧
    (getActive [⟨1, "New", 500, "", some 9, true⟩] 1).map Product.name =
      some "New" := by decide

/-- C6 (amended): the cart view and checkout revalidation overwrite each
surviving line's cached_price with the current Product price but keep the
stored cached_name; update_cart rebuilds each accepted line with both the
current price and the current name; add_to_cart on an existing line
refreshes neither — the merged line keeps its old cached name and price. -/
theorem C6_refresh_policy :
    (∀ (catalog : List Product) (c : List CartItem) (i : CartItem),
        i ∈ (cartViewValidate catalog c).1 →
        ∃ line p, line ∈ c ∧ getActive catalog line.id = some p ∧
          i.id = line.id ∧ i.price = p.price ∧ i.name = line.name) ∧
    (∀ (catalog : List Product) (c v : List CartItem) (i : CartItem),
        revalidate catalog c = .ok v → i ∈ v →
        ∃ line p, line ∈ c ∧ getActive catalog line.id = some p ∧
          i.id = line.id ∧ i.price = p.price ∧ i.name = line.name) ∧
    (∀ (catalog : List Product) (payload : List UpdateEntry) (v : List CartItem)
        (i : CartItem), validateUpdate catalog payload = .ok v → i ∈ v →
        ∃ p, getActive catalog i.id = some p ∧
          i.price = p.price ∧ i.name = p.name) ∧
    (∀ (catalog : List Product) (pid : Nat) (qty : Int) (s : Session) (cc : Int)
        (nm : String) (old : CartItem), (s.cart.map CartItem.id).Nodup →
        old ∈ s.cart → old.id = pid →
        (add_to_cart catalog (some pid) qty s).2 = .ok cc nm →
        ∀ i ∈ (add_to_cart catalog (some pid) qty s).1.cart, i.id = pid →
          i.name = old.name ∧ i.price = old.price) := by
  refine ⟨?_, ?_, ?_, ?_⟩
  · intro catalog c i hi
    rcases mem_cartViewValidate.1 hi with ⟨line, hm, hvl⟩
    rcases viewLine_eq_some hvl with ⟨p, hp, hid, hnm, -, hpr, -⟩
    exact ⟨line, p, hm, hp, hid, hpr, hnm⟩
  · intro catalog c v i hrv hi
    rcases (revalidate_ok_iff catalog c v).1 hrv with ⟨hall, hv⟩
    subst hv
    rcases List.mem_map.1 hi with ⟨line, hm, hl⟩
    rcases hall line hm with ⟨p, hp, -⟩
    subst hl
    rw [refreshLine_of_some hp]
    exact ⟨line, p, hm, hp, rfl, rfl, rfl⟩
  · intro catalog payload v i hv hi
    rcases validateUpdate_ok_mem hv i hi with ⟨p, hp, hn, hpr, -, -⟩
    exact ⟨p, hp, hpr, hn⟩
  · intro catalog pid qty s cc nm old hnd hold hoid hok i hi hip
    rcases add_to_cart_ok hok with ⟨p, c2, hg, hadd, hfst, -, -, -⟩
    have hpid : p.id = pid := (getActive_eq_some hg).1
    have hold2 : old.id = p.id := hoid.trans hpid.symm
    rw [hfst] at hi
    have hi2 : i ∈ c2 := hi
    have hme := (addToCartList_merge hnd hold hold2 hadd).1 i hi2
      (hip.trans hpid.symm)
    rw [hme]
    exact ⟨rfl, rfl⟩

/-- Witness for C6 on concrete carts: the view keeps the stale name with the
refreshed price; checkout revalidation does the same; update_cart rebuilds
the line with the current name and price; add_to_cart leaves the merged
line's cached name and price untouched. -/
theorem C6_refresh_policy_witness :
    (∃ line p, line ∈ [(⟨1, "Old", 300, "", 1⟩ : CartItem)] ∧
        getActive [⟨1, "New", 500, "", some 9, true⟩] line.id = some p ∧
        (⟨1, "Old", 500, "", 1⟩ : CartItem).id = line.id ∧
        (⟨1, "Old", 500, "", 1⟩ : CartItem).price = p.price ∧
        (⟨1, "Old", 500, "", 1⟩ : CartItem).name = line.name) ∧
    (∃ line p, line ∈ [(⟨1, "Old", 300, "", 1⟩ : CartItem)] ∧
        getActive [⟨1, "New", 500, "", some 9, true⟩] line.id = some p ∧
        (⟨1, "Old", 500, "", 1⟩ : CartItem).id = line.id ∧
        (⟨1, "Old", 500, "", 1⟩ : CartItem).price = p.price ∧
        (⟨1, "Old", 500, "", 1⟩ : CartItem).name = line.name) ∧
    (∃ p, getActive [⟨1, "New", 500, "", some 9, true⟩]
        (⟨1, "New", 500, "", 2⟩ : CartItem).id = some p ∧
        (⟨1, "New", 500, "", 2⟩ : CartItem).price = p.price ∧
        (⟨1, "New", 500, "", 2⟩ : CartItem).name = p.name) ∧
    (∀ i ∈ (add_to_cart [⟨1, "New", 500, "", some 9, true⟩] (some 1) 2
        ⟨[⟨1, "Old", 300, "", 1⟩], 1, none⟩).1.cart, i.id = 1 →
      i.name = (⟨1, "Old", 300, "", 1⟩ : CartItem).name ∧
        i.price = (⟨1, "Old", 300, "", 1⟩ : CartItem).price) := by
  have h := C6_refresh_policy
  refine ⟨?_, ?_, ?_, ?_⟩
  · exact h.1 [⟨1, "New", 500, "", some 9, true⟩] [⟨1, "Old", 300, "", 1⟩]
      ⟨1, "Old", 500, "", 1⟩ (by decide)
  · exact h.2.1 [⟨1, "New", 500, "", some 9, true⟩] [⟨1, "Old", 300, "", 1⟩]
      [⟨1, "Old", 500, "", 1⟩] ⟨1, "Old", 500, "", 1⟩ (by rfl) (by decide)
  · exact h.2.2.1 [⟨1, "New", 500, "", some 9, true⟩] [⟨some 1, some 2⟩]
      [⟨1, "New", 500, "", 2⟩] ⟨1, "New", 500, "", 2⟩ (by rfl) (by decide)
  · exact h.2.2.2 [⟨1, "New", 500, "", some 9, true⟩] 1 2
      ⟨[⟨1, "Old", 300, "", 1⟩], 1, none⟩ 3 "New" ⟨1, "Old", 300, "", 1⟩
      (by decide) (by decide) (by decide) (by decide)

/-- C7: after any reconciliation at any entry point the session's cart_count
equals the sum of the quantities of the persisted cart lines.  Every
endpoint that rewrites the cart recomputes cart_count from it; every
rejection leaves both untouched; checkout's form render persists a
price-refreshed cart whose quantities are unchanged; checkout's commit
clears both.  So the invariant cart_count = Σ quantity is preserved by the
cart view, add_to_cart, update_cart, remove_from_cart and checkout. -/
theorem C7_cart_count_invariant (catalog : List Product) (orders : List Order)
    (s : Session) (pid? : Option Nat) (qty : Int) (payload : List UpdateEntry)
    (isPost : Bool) (form : OrderForm) (a b : Bool)
    (hinv : s.cart_count = sumQty s.cart) :
    ((cart catalog s).1.cart_count = sumQty (cart catalog s).1.cart) ∧
    ((add_to_cart catalog pid? qty s).1.cart_count =
      sumQty (add_to_cart catalog pid? qty s).1.cart) ∧
    ((update_cart catalog payload s).1.cart_count =
      sumQty (update_cart catalog payload s).1.cart) ∧
    ((remove_from_cart pid? s).1.cart_count =
      sumQty (remove_from_cart pid? s).1.cart) ∧
    ((checkout isPost form a b ⟨catalog, orders, s⟩).state.session.cart_count =
      sumQty (checkout isPost form a b ⟨catalog, orders, s⟩).state.session.cart) := by
  refine ⟨rfl, ?_, ?_, ?_, ?_⟩
  · rcases add_to_cart_fst_cases catalog pid? qty s with h | ⟨c, h⟩
    · rw [h]; exact hinv
    · rw [h]
  · rw [update_cart]
    cases hv : validateUpdate catalog payload with
    | error r => exact hinv
    | ok v => rfl
  · cases pid? with
    | none => exact hinv
    | some pid =>
      by_cases h0 : (pid == 0) = true
      · simp only [remove_from_cart, if_pos h0]
        exact hinv
      · simp only [remove_from_cart, if_neg h0]
  · by_cases hne : s.cart = []
    · rw [checkout_empty hne]
      exact hinv
    · cases hrv : revalidate catalog s.cart with
      | error r =>
        rw [checkout_reject hne hrv]
        exact hinv
      | ok v =>
        by_cases hpv : (isPost && form.is_valid) = true
        · rw [checkout_commit hne hrv hpv]
          rfl
        · rw [checkout_render hne hrv (Bool.not_eq_true _ ▸ hpv)]
          rcases (revalidate_ok_iff catalog s.cart v).1 hrv with ⟨-, hv⟩
          subst hv
          dsimp only
          rw [hinv, sumQty_map_refreshLine]

/-- Witness for C7 at a concrete store: a session whose cart_count matches
its cart keeps the invariant across every endpoint. -/
theorem C7_cart_count_invariant_witness :
    (((cart [⟨1, "A", 500, "", some 4, true⟩]
        ⟨[⟨1, "A", 500, "", 2⟩], 2, none⟩).1.cart_count =
      sumQty (cart [⟨1, "A", 500, "", some 4, true⟩]
        ⟨[⟨1, "A", 500, "", 2⟩], 2, none⟩).1.cart) ∧
    ((add_to_cart [⟨1, "A", 500, "", some 4, true⟩] (some 1) 1
        ⟨[⟨1, "A", 500, "", 2⟩], 2, none⟩).1.cart_count =
      sumQty (add_to_cart [⟨1, "A", 500, "", some 4, true⟩] (some 1) 1
        ⟨[⟨1, "A", 500, "", 2⟩], 2, none⟩).1.cart) ∧
    ((update_cart [⟨1, "A", 500, "", some 4, true⟩] [⟨some 1, some 3⟩]
        ⟨[⟨1, "A", 500, "", 2⟩], 2, none⟩).1.cart_count =
      sumQty (update_cart [⟨1, "A", 500, "", some 4, true⟩] [⟨some 1, some 3⟩]
        ⟨[⟨1, "A", 500, "", 2⟩], 2, none⟩).1.cart) ∧
    ((remove_from_cart (some 1) ⟨[⟨1, "A", 500, "", 2⟩], 2, none⟩).1.cart_count =
      sumQty (remove_from_cart (some 1)
        ⟨[⟨1, "A", 500, "", 2⟩], 2, none⟩).1.cart) ∧
    ((checkout true ⟨"n", "e", "p", "a", "m", true⟩ true true
        ⟨[⟨1, "A", 500, "", some 4, true⟩], [],
         ⟨[⟨1, "A", 500, "", 2⟩], 2, none⟩⟩).state.session.cart_count =
      sumQty (checkout true ⟨"n", "e", "p", "a", "m", true⟩ true true
        ⟨[⟨1, "A", 500, "", some 4, true⟩], [],
         ⟨[⟨1, "A", 500, "", 2⟩], 2, none⟩⟩).state.session.cart)) :=
  C7_cart_count_invariant [⟨1, "A", 500, "", some 4, true⟩] []
    ⟨[⟨1, "A", 500, "", 2⟩], 2, none⟩ (some 1) 1 [⟨some 1, some 3⟩]
    true ⟨"n", "e", "p", "a", "m", true⟩ true true (by decide)

/-- C3 counterexample: add_to_cart validates only the added product, so a
pre-existing line whose product's stock has meanwhile dropped below its
quantity survives the add reconciliation: after a successful add, the
session still holds a line with quantity 5 for a product with stock 2. -/
theorem C3_add_keeps_overstock_line :
    (let catalog : List Product :=
       [⟨1, "A", 500, "", some 10, true⟩, ⟨2, "B", 200, "", some 2, true⟩]
     let out := add_to_cart catalog (some 1) 1 ⟨[⟨2, "B", 200, "", 5⟩], 5, none⟩
     out.2 = .ok 6 "A" ∧
     (⟨2, "B", 200, "", 5⟩ : CartItem) ∈ out.1.cart ∧
     getActive catalog 2 = some ⟨2, "B", 200, "", some 2, true⟩ ∧
     ¬ ((5 : Int) ≤ 2)) := by decide

/-- C3 (amended): after a cart-view, checkout or update-cart reconciliation
every line of the produced cart satisfies quantity ≤ stock whenever the
stock of its product is finite; add_to_cart guarantees the bound only for
the added product's line (pre-existing lines for other products are not
re-checked), and remove_from_cart performs no stock check at all. -/
theorem C3_stock_bound_policy :
    (∀ (catalog : List Product) (c : List CartItem) (i : CartItem),
        i ∈ (cartViewValidate catalog c).1 →
        ∀ p s2, getActive catalog i.id = some p → p.stock = some s2 →
          i.quantity ≤ s2) ∧
    (∀ (catalog : List Product) (c v : List CartItem) (i : CartItem),
        revalidate catalog c = .ok v → i ∈ v →
        ∀ p s2, getActive catalog i.id = some p → p.stock = some s2 →
          i.quantity ≤ s2) ∧
    (∀ (catalog : List Product) (payload : List UpdateEntry) (v : List CartItem)
        (i : CartItem), validateUpdate catalog payload = .ok v → i ∈ v →
        ∀ p s2, getActive catalog i.id = some p → p.stock = some s2 →
          i.quantity ≤ s2) ∧
    (∀ (catalog : List Product) (pid : Nat) (qty : Int) (s : Session) (cc : Int)
        (nm : String), (s.cart.map CartItem.id).Nodup →
        (add_to_cart catalog (some pid) qty s).2 = .ok cc nm →
        ∀ i ∈ (add_to_cart catalog (some pid) qty s).1.cart, i.id = pid →
          ∀ p s2, getActive catalog pid = some p → p.stock = some s2 →
            i.quantity ≤ s2) := by
  refine ⟨?_, ?_, ?_, ?_⟩
  · intro catalog c i hi p s2 hp hs
    rcases mem_cartViewValidate.1 hi with ⟨line, hm, hvl⟩
    rcases viewLine_eq_some hvl with ⟨p2, hp2, hid, -, -, -, hq⟩
    rw [hid] at hp
    rw [hp2] at hp
    injection hp with he
    subst he
    rw [hq, hs]
    dsimp only
    split
    · exact le_refl s2
    · next hgt => exact not_lt.1 hgt
  · intro catalog c v i hrv hi p s2 hp hs
    rcases (revalidate_ok_iff catalog c v).1 hrv with ⟨hall, hv⟩
    subst hv
    rcases List.mem_map.1 hi with ⟨line, hm, hl⟩
    subst hl
    rcases hall line hm with ⟨p2, hp2, hb⟩
    rw [refreshLine_id] at hp
    rw [hp2] at hp
    injection hp with he
    subst he
    rw [refreshLine_quantity]
    exact hb s2 hs
  · intro catalog payload v i hv hi p s2 hp hs
    rcases validateUpdate_ok_mem hv i hi with ⟨p2, hp2, -, -, -, hb⟩
    rw [hp2] at hp
    injection hp with he
    subst he
    exact hb s2 hs
  · intro catalog pid qty s cc nm hnd hok i hi hip p s2 hp hs
    rcases add_to_cart_ok hok with ⟨p2, c2, hg, hadd, hfst, hq, -, -⟩
    rw [hg] at hp
    injection hp with he
    subst he
    have hpid : p2.id = pid := (getActive_eq_some hg).1
    rw [hfst] at hi
    have hi2 : i ∈ c2 := hi
    by_cases hex : ∃ old ∈ s.cart, old.id = p2.id
    · rcases hex with ⟨old, ho, hoid⟩
      have hm := addToCartList_merge hnd ho hoid hadd
      rw [hm.1 i hi2 (hip.trans hpid.symm)]
      exact hm.2 s2 hs
    · push_neg at hex
      rw [addToCartList_fresh hex hadd i hi2 (hip.trans hpid.symm)]
      exact hq s2 hs

/-- Witness for C3 on concrete carts: the clamped view line, a revalidated
checkout line, an accepted update line, and the merged add line all satisfy
their stock bound. -/
theorem C3_stock_bound_policy_witness :
    (∀ p s2, getActive [⟨1, "A", 500, "", some 5, true⟩]
        (⟨1, "A", 500, "", 5⟩ : CartItem).id = some p → p.stock = some s2 →
        (⟨1, "A", 500, "", 5⟩ : CartItem).quantity ≤ s2) ∧
    (∀ p s2, getActive [⟨1, "A", 500, "", some 5, true⟩]
        (⟨1, "A", 500, "", 3⟩ : CartItem).id = some p → p.stock = some s2 →
        (⟨1, "A", 500, "", 3⟩ : CartItem).quantity ≤ s2) ∧
    (∀ p s2, getActive [⟨1, "A", 500, "", some 5, true⟩]
        (⟨1, "A", 500, "", 4⟩ : CartItem).id = some p → p.stock = some s2 →
        (⟨1, "A", 500, "", 4⟩ : CartItem).quantity ≤ s2) ∧
    (∀ p s2, getActive [⟨1, "A", 500, "", some 5, true⟩] 1 = some p →
        p.stock = some s2 →
        (⟨1, "A", 500, "", 3⟩ : CartItem).quantity ≤ s2) := by
  have h := C3_stock_bound_policy
  refine ⟨?_, ?_, ?_, ?_⟩
  · exact h.1 [⟨1, "A", 500, "", some 5, true⟩] [⟨1, "A", 500, "", 7⟩]
      ⟨1, "A", 500, "", 5⟩ (by decide)
  · exact h.2.1 [⟨1, "A", 500, "", some 5, true⟩] [⟨1, "A", 500, "", 3⟩]
      [⟨1, "A", 500, "", 3⟩] ⟨1, "A", 500, "", 3⟩ (by rfl) (by decide)
  · exact h.2.2.1 [⟨1, "A", 500, "", some 5, true⟩] [⟨some 1, some 4⟩]
      [⟨1, "A", 500, "", 4⟩] ⟨1, "A", 500, "", 4⟩ (by rfl) (by decide)
  · exact h.2.2.2 [⟨1, "A", 500, "", some 5, true⟩] 1 1
      ⟨[⟨1, "A", 500, "", 2⟩], 2, none⟩ 3 "A" (by decide) (by decide)
      ⟨1, "A", 500, "", 3⟩ (by decide) (by decide)

/-- C4 counterexample: update_cart does not merge duplicate product ids in
one payload — each accepted entry becomes its own line, so the persisted
cart holds two lines for product 1. -/
theorem C4_update_duplicate_lines :
    (let out := update_cart [⟨1, "A", 500, "", some 10, true⟩]
        [⟨some 1, some 1⟩, ⟨some 1, some 2⟩] ⟨[], 0, none⟩
     out.2 = .ok 3 ∧
     out.1.cart.map CartItem.id = [1, 1] ∧
     ¬ (out.1.cart.map CartItem.id).Nodup) := by decide

/-- C4 (amended): the CartLine invariants (at most one line per product id,
positive quantities) are preserved with the following provisos.  The cart
view preserves them provided no surviving product's finite stock is zero
(clamping against zero stock would leave a zero-quantity line).
add_to_cart preserves them when the submitted quantity is positive, and it
merges a duplicate add into the existing line with the summed quantity.
update_cart produces positive quantities unconditionally (non-positive
entries are dropped) but deduplicates only if the payload itself repeats no
product id.  remove_from_cart preserves both invariants. -/
theorem C4_cart_line_invariants :
    (∀ (catalog : List Product) (c : List CartItem),
        (c.map CartItem.id).Nodup → (∀ i ∈ c, 1 ≤ i.quantity) →
        (∀ i ∈ c, ∀ p s2, getActive catalog i.id = some p →
          p.stock = some s2 → 1 ≤ s2) →
        ((cartViewValidate catalog c).1.map CartItem.id).Nodup ∧
          ∀ i ∈ (cartViewValidate catalog c).1, 1 ≤ i.quantity) ∧
    (∀ (catalog : List Product) (pid : Nat) (qty : Int) (s : Session)
        (cc : Int) (nm : String),
        (s.cart.map CartItem.id).Nodup → (∀ i ∈ s.cart, 1 ≤ i.quantity) →
        1 ≤ qty → (add_to_cart catalog (some pid) qty s).2 = .ok cc nm →
        (((add_to_cart catalog (some pid) qty s).1.cart.map CartItem.id).Nodup ∧
         (∀ i ∈ (add_to_cart catalog (some pid) qty s).1.cart, 1 ≤ i.quantity) ∧
         ∀ p, getActive catalog pid = some p →
           ((add_to_cart catalog (some pid) qty s).1.cart.filter
               (fun i => i.id == p.id)).map CartItem.quantity =
             [sumQty (s.cart.filter (fun i => i.id == p.id)) + qty])) ∧
    (∀ (catalog : List Product) (payload : List UpdateEntry) (v : List CartItem),
        validateUpdate catalog payload = .ok v →
        ((∀ i ∈ v, 1 ≤ i.quantity) ∧
         ((payload.filterMap UpdateEntry.pid).Nodup → (v.map CartItem.id).Nodup))) ∧
    (∀ (pid? : Option Nat) (s : Session),
        (s.cart.map CartItem.id).Nodup → (∀ i ∈ s.cart, 1 ≤ i.quantity) →
        (((remove_from_cart pid? s).1.cart.map CartItem.id).Nodup ∧
         ∀ i ∈ (remove_from_cart pid? s).1.cart, 1 ≤ i.quantity)) := by
  refine ⟨?_, ?_, ?_, ?_⟩
  · intro catalog c hnd hpos hstk
    refine ⟨List.Nodup.sublist (cartViewValidate_ids_sublist catalog c) hnd, ?_⟩
    intro i hi
    rcases mem_cartViewValidate.1 hi with ⟨line, hm, hvl⟩
    rcases viewLine_eq_some hvl with ⟨p, hp, hid, -, -, -, hq⟩
    rw [hq]
    cases hs : p.stock with
    | none => exact hpos line hm
    | some s2 =>
      dsimp only
      split
      · exact hstk line hm p s2 hp hs
      · exact hpos line hm
  · intro catalog pid qty s cc nm hnd hpos hq1 hok
    rcases add_to_cart_ok hok with ⟨p, c2, hg, hadd, hfst, -, -, -⟩
    have hids := addToCartList_ids hadd
    rw [hfst]
    dsimp only
    refine ⟨?_, ?_, ?_⟩
    · rw [hids]
      by_cases hmem : p.id ∈ s.cart.map CartItem.id
      · rw [if_pos hmem]
        exact hnd
      · rw [if_neg hmem]
        refine List.Nodup.append hnd (List.nodup_singleton _) ?_
        intro x hx hx2
        rw [List.mem_singleton.1 hx2] at hx
        exact hmem hx
    · intro i hi
      rcases addToCartList_mem hadd i hi with h1 | ⟨old, ho, -, hieq, -⟩ | h3
      · exact hpos i h1
      · rw [hieq]
        have h2 := hpos old ho
        dsimp only
        omega
      · rw [h3]
        exact hq1
    · intro p2 hp2
      rw [hg] at hp2
      injection hp2 with he
      subst he
      exact addToCartList_filter_sum hnd hadd
  · intro catalog payload v hv
    refine ⟨?_, fun hnd => List.Nodup.sublist (validateUpdate_ok_ids hv) hnd⟩
    intro i hi
    rcases validateUpdate_ok_mem hv i hi with ⟨p, -, -, -, hq, -⟩
    omega
  · intro pid? s hnd hpos
    cases pid? with
    | none => exact ⟨hnd, hpos⟩
    | some pid =>
      by_cases h0 : (pid == 0) = true
      · simp only [remove_from_cart, if_pos h0]
        exact ⟨hnd, hpos⟩
      · simp only [remove_from_cart, if_neg h0]
        refine ⟨List.Nodup.sublist (List.Sublist.map CartItem.id
          (List.filter_sublist s.cart)) hnd, ?_⟩
        intro i hi
        exact hpos i (List.mem_of_mem_filter hi)

/-- Witness for C4 on concrete carts: the view (with nonzero stock), a
positive-quantity add merging into one summed line, a duplicate-free
update, and a removal all keep one line per product id with positive
quantities. -/
theorem C4_cart_line_invariants_witness :
    (((cartViewValidate [⟨1, "A", 500, "", some 5, true⟩]
        [⟨1, "A", 500, "", 7⟩]).1.map CartItem.id).Nodup ∧
      ∀ i ∈ (cartViewValidate [⟨1, "A", 500, "", some 5, true⟩]
        [⟨1, "A", 500, "", 7⟩]).1, 1 ≤ i.quantity) ∧
    (((add_to_cart [⟨1, "A", 500, "", some 5, true⟩] (some 1) 1
        ⟨[⟨1, "A", 500, "", 2⟩], 2, none⟩).1.cart.map CartItem.id).Nodup ∧
     (∀ i ∈ (add_to_cart [⟨1, "A", 500, "", some 5, true⟩] (some 1) 1
        ⟨[⟨1, "A", 500, "", 2⟩], 2, none⟩).1.cart, 1 ≤ i.quantity) ∧
     ∀ p, getActive [⟨1, "A", 500, "", some 5, true⟩] 1 = some p →
       ((add_to_cart [⟨1, "A", 500, "", some 5, true⟩] (some 1) 1
           ⟨[⟨1, "A", 500, "", 2⟩], 2, none⟩).1.cart.filter
           (fun i => i.id == p.id)).map CartItem.quantity =
         [sumQty (([⟨1, "A", 500, "", 2⟩] : List CartItem).filter
           (fun i => i.id == p.id)) + 1]) ∧
    ((∀ i ∈ ([⟨1, "A", 500, "", 2⟩] : List CartItem), 1 ≤ i.quantity) ∧
      ((([⟨some 1, some 2⟩] : List UpdateEntry).filterMap UpdateEntry.pid).Nodup →
        (([⟨1, "A", 500, "", 2⟩] : List CartItem).map CartItem.id).Nodup)) ∧
    (((remove_from_cart (some 1)
        ⟨[⟨1, "A", 500, "", 2⟩], 2, none⟩).1.cart.map CartItem.id).Nodup ∧
      ∀ i ∈ (remove_from_cart (some 1)
        ⟨[⟨1, "A", 500, "", 2⟩], 2, none⟩).1.cart, 1 ≤ i.quantity) := by
  have h := C4_cart_line_invariants
  refine ⟨?_, ?_, ?_, ?_⟩
  · refine h.1 [⟨1, "A", 500, "", some 5, true⟩] [⟨1, "A", 500, "", 7⟩]
      (by decide) (by decide) ?_
    intro i hi p s2 hp hs
    rw [List.mem_singleton] at hi
    subst hi
    have hps : p = ⟨1, "A", 500, "", some 5, true⟩ :=
      Option.some.inj (hp.symm.trans (by decide))
    subst hps
    injection hs with he
    omega
  · exact h.2.1 [⟨1, "A", 500, "", some 5, true⟩] 1 1
      ⟨[⟨1, "A", 500, "", 2⟩], 2, none⟩ 3 "A"
      (by decide) (by decide) (by decide) (by decide)
  · exact h.2.2.1 [⟨1, "A", 500, "", some 5, true⟩] [⟨some 1, some 2⟩]
      [⟨1, "A", 500, "", 2⟩] (by rfl)
  · exact h.2.2.2 (some 1) ⟨[⟨1, "A", 500, "", 2⟩], 2, none⟩
      (by decide) (by decide)

/-- C1: a successful checkout commit — POST request, valid form, non-empty
session cart in which every line's product is active and within stock —
persists one new Order with status "pending", line_items equal to the
validated cart snapshot (the stored lines with prices refreshed from the
catalog) and total equal to Σ cached_price · quantity over those lines;
decrements each purchased product's stock by that line's quantity; and
clears the session cart, so afterwards the session cart is the empty
sequence and cart_count is 0. -/
theorem C1_checkout_commit_effects (form : OrderForm) (a b : Bool) (st : StoreState)
    (hform : form.is_valid = true)
    (hne : st.session.cart ≠ [])
    (hnd : (st.session.cart.map CartItem.id).Nodup)
    (hval : ∀ line ∈ st.session.cart, ∃ p, getActive st.catalog line.id = some p ∧
      ∀ s2, p.stock = some s2 → line.quantity ≤ s2) :
    ∃ ord : Order,
      (checkout true form a b st).result = .success ord.id ∧
      (checkout true form a b st).state.orders = st.orders ++ [ord] ∧
      ord.status = "pending" ∧
      ord.items = st.session.cart.map (refreshLine st.catalog) ∧
      ord.total = cartTotal (st.session.cart.map (refreshLine st.catalog)) ∧
      (∀ line ∈ st.session.cart,
        getById (checkout true form a b st).state.catalog line.id =
          (getById st.catalog line.id).map
            (fun p => { p with
              stock := p.stock.map (fun s2 => s2 - line.quantity) })) ∧
      (checkout true form a b st).state.session.cart = [] ∧
      (checkout true form a b st).state.session.cart_count = 0 := by
  have hrv : revalidate st.catalog st.session.cart =
      .ok (st.session.cart.map (refreshLine st.catalog)) :=
    (revalidate_ok_iff _ _ _).2 ⟨hval, rfl⟩
  have hcond : (true && form.is_valid) = true := by simp [hform]
  rw [checkout_commit hne hrv hcond]
  refine ⟨⟨st.orders.length + 1, form.name, form.email, form.phone, form.address,
    form.payment_method, "pending", st.session.cart.map (refreshLine st.catalog),
    cartTotal (st.session.cart.map (refreshLine st.catalog))⟩,
    rfl, rfl, rfl, rfl, rfl, ?_, rfl, rfl⟩
  intro line hm
  dsimp only
  have hidmap : (st.session.cart.map (refreshLine st.catalog)).map CartItem.id =
      st.session.cart.map CartItem.id := by
    rw [List.map_map]
    exact List.map_congr_left fun l _ => refreshLine_id st.catalog l
  have hndv : ((st.session.cart.map (refreshLine st.catalog)).map CartItem.id).Nodup := by
    rw [hidmap]
    exact hnd
  have hmem : refreshLine st.catalog line ∈
      st.session.cart.map (refreshLine st.catalog) :=
    List.mem_map_of_mem _ hm
  have hfold := foldl_decrementStock_mem st.catalog hndv hmem
  simp only [refreshLine_id, refreshLine_quantity] at hfold
  exact hfold

/-- Witness for C1: a one-line cart (quantity 3, stock 10) checked out with
a valid form commits the order, decrements the stock and clears the cart. -/
theorem C1_checkout_commit_effects_witness :
    (let st : StoreState := ⟨[⟨1, "A", 500, "", some 10, true⟩], [],
      ⟨[⟨1, "A", 500, "", 3⟩], 3, none⟩⟩
     let form : OrderForm := ⟨"n", "e", "p", "a", "m", true⟩
     ∃ ord : Order,
      (checkout true form true true st).result = .success ord.id ∧
      (checkout true form true true st).state.orders = st.orders ++ [ord] ∧
      ord.status = "pending" ∧
      ord.items = st.session.cart.map (refreshLine st.catalog) ∧
      ord.total = cartTotal (st.session.cart.map (refreshLine st.catalog)) ∧
      (∀ line ∈ st.session.cart,
        getById (checkout true form true true st).state.catalog line.id =
          (getById st.catalog line.id).map
            (fun p => { p with
              stock := p.stock.map (fun s2 => s2 - line.quantity) })) ∧
      (checkout true form true true st).state.session.cart = [] ∧
      (checkout true form true true st).state.session.cart_count = 0) :=
  C1_checkout_commit_effects ⟨"n", "e", "p", "a", "m", true⟩ true true
    ⟨[⟨1, "A", 500, "", some 10, true⟩], [], ⟨[⟨1, "A", 500, "", 3⟩], 3, none⟩⟩
    rfl (by decide) (by decide)
    (by
      intro line hl
      rw [List.mem_singleton] at hl
      subst hl
      exact ⟨⟨1, "A", 500, "", some 10, true⟩, by decide,
        fun s2 hs2 => by
          injection hs2 with he
          subst he
          decide⟩)

end Store
